import Mathlib

/-!
go-failover: roster and election engine.

A shallow embedding of `failover.go` (package `go_failover`): the peer roster
(`PeerList.Add`, `PeerList.sort`), the discovery routine (`StateInit`,
`findActive`) and the two cases of the event loop of `Group.loop`.

Effects of the engine (outbound `Transport.Advertise` calls, the two role
callbacks, replies written to the response slot of an inbound advertisement)
are recorded, in order, in a trace carried by the engine state.
-/

namespace GoFailover

/-! ## Data model -/

/-- Go: `type PeerState string`. -/
abbrev PeerState := String

/-- Go: `type Priority uint8`; priorities are only compared, never computed with. -/
abbrev Priority := Nat

def Init : PeerState := "init"
def Active : PeerState := "active"
def Standby : PeerState := "standby"
def Unknown : PeerState := "unknown"

def DefaultPriority : Priority := 100

/-- Go: `type Peer struct { Id string; Priority Priority; State PeerState }`. -/
structure Peer where
  Id : String
  Priority : Priority
  State : PeerState
  deriving DecidableEq, Repr

/-- Go: `type PeerList []Peer`. -/
abbrev PeerList := List Peer

/-- The comparison handed to `sort.SliceStable` in `PeerList.sort`:
`(*l)[i].Priority > (*l)[j].Priority`. -/
def less (a b : Peer) : Bool := decide (a.Priority > b.Priority)

/-- One pass of the inner loop of the library's stable insertion sort
(`for j := i; j > a && less(j, j-1); j-- { swap(j, j-1) }`): the element `x`,
sitting right after the already processed entries, moves left as long as it is
`less` than its left neighbour.  It therefore comes to rest in front of the
longest suffix all of whose entries it is `less` than. -/
def insertLast (x : Peer) : List Peer → List Peer
  | [] => [x]
  | y :: ys =>
    if (y :: ys).all (fun z => less x z) then x :: y :: ys
    else y :: insertLast x ys

/-- Go: `func (l *PeerList) sort()`, a call of `sort.SliceStable` with `less`.
The library routine is modelled by the stable insertion sort it is built on:
entries are taken left to right and each is moved into place by `insertLast`. -/
def PeerList.sort (l : PeerList) : PeerList :=
  l.foldl (fun acc x => insertLast x acc) []

/-- The `for idx, p := range *l` loop of `PeerList.Add`: the first entry whose id
equals `peer.Id` is overwritten in place and the loop returns; `none` when the
loop runs to its end without finding the id. -/
def updateExisting : List Peer → Peer → Option (List Peer)
  | [], _ => none
  | p :: rest, peer =>
    if p.Id = peer.Id then some (peer :: rest)
    else (updateExisting rest peer).map (fun r => p :: r)

/-- Go: `func (l *PeerList) Add(peer Peer)`. -/
def PeerList.Add (l : PeerList) (peer : Peer) : PeerList :=
  match updateExisting l peer with
  | some l' => l'
  | none => PeerList.sort (l ++ [peer])

/-- The roster obtained from the empty `PeerList` by `Add`ing the peers in turn. -/
def addAll (ps : List Peer) : PeerList :=
  ps.foldl PeerList.Add []

/-- Sorted by descending priority: every entry's priority is at least the
priority of the entry after it. -/
def SortedDesc (l : PeerList) : Prop :=
  List.Chain' (fun a b => a.Priority ≥ b.Priority) l

/-- Index of the first entry of `l` whose id is `id`; `l.length` when there is none. -/
def idIndex (l : List Peer) (id : String) : Nat :=
  (l.map Peer.Id).indexOf id

/-- Entries of equal priority stand in the order in which their ids were first
inserted by the sequence `ps`. -/
def InsertionOrdered (ps : List Peer) (l : PeerList) : Prop :=
  l.Pairwise (fun a b => a.Priority = b.Priority → idIndex ps a.Id < idIndex ps b.Id)

instance (ps : List Peer) (l : PeerList) : Decidable (InsertionOrdered ps l) :=
  inferInstanceAs (Decidable (List.Pairwise _ l))

/-- The ids of a roster are pairwise distinct. -/
def UniqueIds (l : PeerList) : Prop := (l.map Peer.Id).Nodup

/-- Order of two roster entries under the roster invariant: strictly higher
priority first, and on equal priority the id first inserted first. -/
def Before (ps : List Peer) (a b : Peer) : Prop :=
  a.Priority > b.Priority ∨
    (a.Priority = b.Priority ∧ idIndex ps a.Id < idIndex ps b.Id)

/-! ## Engine model -/

/-- Go: `type Advertisement struct`. -/
structure Advertisement where
  GroupId : String
  Local : Peer
  Active : Peer
  Standby : PeerList
  IntervalMs : Nat
  deriving DecidableEq, Repr

/-- The zero value `Peer{}`. -/
def Peer.zero : Peer := ⟨"", 0, ""⟩

/-- The zero value `Advertisement{}`. -/
def Advertisement.zero : Advertisement := ⟨"", Peer.zero, Peer.zero, [], 0⟩

/-- Go `error` values met by the engine: the package's `ErrPeerIsInit` and
whatever error a transport reports. -/
inductive Error where
  | ErrPeerIsInit
  | transport (msg : String)
  deriving DecidableEq, Repr

/-- Go: `type Group struct`.  The two callback fields record whether a function
was supplied (`true`) or the field is `nil` (`false`); the transport is kept
apart, in `Transport`. -/
structure Group where
  id : String
  «local» : Peer
  active : Peer
  standby : PeerList
  intervalMs : Nat
  becomeActive : Bool
  becomeStandby : Bool
  deriving DecidableEq, Repr

/-- What the engine does to the outside world, in the order it does it. -/
inductive Effect where
  /-- A call `g.transport.Advertise(peer, ad)`. -/
  | advertise (peer : Peer) (ad : Advertisement)
  /-- A call of the `becomeActive` callback. -/
  | becomeActive
  /-- A call of the `becomeStandby` callback. -/
  | becomeStandby
  /-- A send `ad.response <- reply` on the response slot of the inbound `ad`. -/
  | respond (ad : Advertisement) (reply : Advertisement)
  deriving DecidableEq, Repr

/-- Go: `type Transport interface`, its `Advertise` method.  A transport is any
state machine: a call sees the transport's state, the target peer and the
advertisement, and yields the reply or an error together with the next state. -/
structure Transport (σ : Type) where
  Advertise : σ → Peer → Advertisement → Except Error Advertisement × σ

/-- The running engine: the `Group`, the local variable `activeDownCount` of
`Group.loop` (a Go `int`; it only ever grows by one per tick, up to the roster
length plus four, before being left alone or reset), the state of the transport
and the trace of effects so far. -/
structure Engine (σ : Type) where
  g : Group
  activeDownCount : Nat
  net : σ
  trace : List Effect

/-- Go: `func New(...) *Group`, the group it builds before `go group.loop()`. -/
def New (groupId localId : String) (localPriority : Nat) (intervalMs : Nat)
    (becomeActiveCallback becomeStandbyCallback : Bool) (peerIds : List String) : Group :=
  let standbyPeers : PeerList :=
    peerIds.foldl (fun l pId => PeerList.Add l ⟨pId, DefaultPriority, Unknown⟩) []
  { id := groupId
    «local» := ⟨localId, localPriority % 256, Init⟩
    active := Peer.zero
    standby := standbyPeers
    intervalMs := intervalMs
    becomeActive := becomeActiveCallback
    becomeStandby := becomeStandbyCallback }

/-- The state `Group.loop` starts from: `activeDownCount := 0`, nothing done yet. -/
def start {σ : Type} (g : Group) (net : σ) : Engine σ :=
  { g := g, activeDownCount := 0, net := net, trace := [] }

/-- Go: `func (g *Group) advertisement() Advertisement`. -/
def Group.advertisement (g : Group) : Advertisement :=
  { GroupId := g.id
    Local := g.local
    Active := g.active
    Standby := g.standby
    IntervalMs := g.intervalMs }

/-- Go: `func (g *Group) stateStandby()`. -/
def stateStandby {σ : Type} (e : Engine σ) : Engine σ :=
  let g := { e.g with «local» := { e.g.local with State := Standby } }
  if g.becomeStandby then { e with g := g, trace := e.trace ++ [Effect.becomeStandby] }
  else { e with g := g }

/-- Go: `func (g *Group) stateActive()`. -/
def stateActive {σ : Type} (e : Engine σ) : Engine σ :=
  let g := { e.g with «local» := { e.g.local with State := Active } }
  let g := { g with active := g.local }
  if g.becomeActive then { e with g := g, trace := e.trace ++ [Effect.becomeActive] }
  else { e with g := g }

/-- The engine once a call `Advertise(peer, g.advertisement())` has returned,
leaving the transport in state `net1`: the call is logged, the group untouched. -/
def afterCall {σ : Type} (e : Engine σ) (peer : Peer) (net1 : σ) : Engine σ :=
  { e with net := net1, trace := e.trace ++ [Effect.advertise peer e.g.advertisement] }

/-- A call `g.transport.Advertise(peer, g.advertisement())`: the call is logged
and the transport moves on to its next state. -/
def callAdvertise {σ : Type} (T : Transport σ) (peer : Peer) (e : Engine σ) :
    Except Error Advertisement × Engine σ :=
  let r := T.Advertise e.net peer e.g.advertisement
  (r.1, afterCall e peer r.2)

/-- The assignments `g.active = adv.Local; g.standby = adv.Standby` followed by
`g.stateStandby()` with which `StateInit` adopts a discovered advertisement. -/
def adopt {σ : Type} (adv : Advertisement) (e : Engine σ) : Engine σ :=
  stateStandby { e with g := { e.g with active := adv.Local, standby := adv.Standby } }

/-- Go: `func findActive(peer Peer, g *Group) (Advertisement, error)`.  The Go
function recurses without bound, so the model takes the number of nested calls
it may make; `none` means that this number did not suffice.  The advertisement
that Go returns next to `ErrPeerIsInit` is dropped: the only caller discards it. -/
def findActive {σ : Type} (T : Transport σ) :
    Nat → Peer → Engine σ → Option (Except Error Advertisement × Engine σ)
  | 0, _, _ => none
  | fuel + 1, peer, e =>
    match callAdvertise T peer e with
    | (Except.error err, e1) => some (Except.error err, e1)
    | (Except.ok adv, e1) =>
      if adv.Local.State = Active then
        some (Except.ok adv, e1)
      else if adv.Local.State = Standby then
        if adv.Active.Id = e1.g.local.Id then
          some (Except.ok adv, e1)
        else
          findActive T fuel adv.Active e1
      else
        some (Except.error Error.ErrPeerIsInit, e1)

/-- The `for _, peer := range g.standby` loop of `StateInit` together with the
`if claimActive` that follows it.  `claimActive` is the Go local of that name. -/
def initSearch {σ : Type} (T : Transport σ) (fuel : Nat) :
    List Peer → Bool → Engine σ → Option (Engine σ)
  | [], claimActive, e => some (if claimActive then stateActive e else e)
  | peer :: rest, claimActive, e =>
    match findActive T fuel peer e with
    | none => none
    | some (Except.error _, e1) => initSearch T fuel rest claimActive e1
    | some (Except.ok adv, e1) =>
      -- `claimActive = true` when `adv.Active.Id == g.local.Id`; the function
      -- returns below before the variable is read again
      let _claimActive := claimActive || decide (adv.Active.Id = e1.g.local.Id)
      some (adopt adv e1)

/-- The first assignment of `StateInit`: `g.local.State = Init`. -/
def enterInit {σ : Type} (e : Engine σ) : Engine σ :=
  { e with g := { e.g with «local» := { e.g.local with State := Init } } }

/-- Go: `func (g *Group) StateInit()`. -/
def StateInit {σ : Type} (T : Transport σ) (fuel : Nat) (e : Engine σ) : Option (Engine σ) :=
  let e := enterInit e
  if e.g.standby.length = 0 then some (stateActive e)
  else initSearch T fuel e.g.standby false e

/-- The advertisement discovery sends out: `g.advertisement()` as it is once
`StateInit` has set `g.local.State = Init`. -/
def initView (g : Group) : Advertisement :=
  ({ g with «local» := { g.local with State := Init } }).advertisement

/-- The send `ad.response <- g.advertisement()`. -/
def respond {σ : Type} (ad : Advertisement) (e : Engine σ) : Engine σ :=
  { e with trace := e.trace ++ [Effect.respond ad e.g.advertisement] }

/-- The `if ... else if ... else if` chain of the `case ad := <-inboundAds` of
`Group.loop`.  The second component tells whether the chain was left through
`break`, which ends the `select` statement. -/
def inboundBranches {σ : Type} (ad : Advertisement) (e : Engine σ) : Engine σ × Bool :=
  if e.g.local.State = Init then
    if ad.Local.Priority > e.g.local.Priority then
      (stateStandby { e with g := { e.g with active := ad.Local } }, false)
    else
      (stateActive { e with g := { e.g with standby := PeerList.Add e.g.standby ad.Local } },
        false)
  else if e.g.local.State = Active then
    ({ e with g := { e.g with standby := PeerList.Add e.g.standby ad.Local } }, false)
  else if e.g.local.State = Standby then
    if ad.Local.State ≠ Active then
      (respond ad e, true)
    else
      let g := if e.g.active.Id ≠ ad.Active.Id ∧ ad.Active.Id ≠ "" then
          { e.g with active := ad.Active } else e.g
      let g := { g with active := ad.Active }
      let g := { g with standby := ad.Standby }
      ({ e with g := g, activeDownCount := 0 }, false)
  else (e, false)

/-- The `case ad := <-inboundAds` of `Group.loop`: the branches, then the final
`ad.response <- g.advertisement()` unless the `select` was left by `break`. -/
def onAdvertisement {σ : Type} (ad : Advertisement) (e : Engine σ) : Engine σ :=
  let r := inboundBranches ad e
  if r.2 then r.1 else respond ad r.1

/-- The `for _, peer := range g.standby` loop of the heartbeat: one `Advertise`
per roster peer, the result and the error both ignored. -/
def fanOut {σ : Type} (T : Transport σ) : List Peer → Engine σ → Engine σ
  | [], e => e
  | peer :: rest, e => fanOut T rest (callAdvertise T peer e).2

/-- The `case <-intervalTicker.C` of `Group.loop`. -/
def onTick {σ : Type} (T : Transport σ) (e : Engine σ) : Engine σ :=
  if e.g.local.State = Active then
    fanOut T e.g.standby e
  else
    let e := { e with activeDownCount := e.activeDownCount + 1 }
    if e.activeDownCount > 3 then
      if e.g.local.State = Init then
        stateActive e
      else
        match e.g.standby with
        | next :: rest =>
          let e := { e with g := { e.g with standby := rest } }
          if next.Id = e.g.local.Id then stateActive e else e
        | [] => stateActive e
    else e

/-- The engine after `n` consecutive heartbeat ticks. -/
def ticks {σ : Type} (T : Transport σ) : Nat → Engine σ → Engine σ
  | 0, e => e
  | n + 1, e => ticks T n (onTick T e)

/-- Number of `Transport.Advertise` calls in a trace. -/
def advertiseCount (tr : List Effect) : Nat :=
  (tr.filter (fun x => match x with | Effect.advertise _ _ => true | _ => false)).length

/-- Number of calls of the become-active callback in a trace. -/
def activeCount (tr : List Effect) : Nat := tr.count Effect.becomeActive

/-- Number of calls of the become-standby callback in a trace. -/
def standbyCount (tr : List Effect) : Nat := tr.count Effect.becomeStandby

/-- The replies sent on the response slot of the inbound advertisement `ad`. -/
def repliesTo (ad : Advertisement) (tr : List Effect) : List Advertisement :=
  tr.filterMap (fun x => match x with
    | Effect.respond a r => if a = ad then some r else none
    | _ => none)

/-- The transport of the repository's tests (`mockTransport`): every call takes
the next scripted response, or fails with "no responses" when none is left. -/
def mockTransport : Transport (List (Except Error Advertisement)) where
  Advertise := fun rs _ _ =>
    match rs with
    | r :: rest => (r, rest)
    | [] => (Except.error (Error.transport "no responses"), [])

/-- The two event sources of the `select` in `Group.loop`. -/
inductive Event where
  /-- An inbound advertisement arrives: `case ad := <-inboundAds`. -/
  | inbound (ad : Advertisement)
  /-- The heartbeat timer fires: `case <-intervalTicker.C`. -/
  | tick
  deriving DecidableEq, Repr

/-- One turn of the `for { select { ... } }` of `Group.loop`. -/
def step {σ : Type} (T : Transport σ) (e : Engine σ) : Event → Engine σ
  | Event.inbound ad => onAdvertisement ad e
  | Event.tick => onTick T e

/-- The event loop run over a finite sequence of events, in arrival order. -/
def run {σ : Type} (T : Transport σ) (evs : List Event) (e : Engine σ) : Engine σ :=
  evs.foldl (step T) e

/-- The peer a member of the two-peer ring `a`, `b` names as active: the other one. -/
def nominate (peer : Peer) : Peer :=
  ⟨if peer.Id = "a" then "b" else "a", 0, Unknown⟩

/-- A transport behind which the peers `a` and `b` keep naming each other: every
call is answered `Standby`, with the other peer of the ring as `active`. -/
def ringTransport : Transport Unit where
  Advertise := fun n peer ad =>
    (Except.ok ⟨ad.GroupId, ⟨peer.Id, 0, Standby⟩, nominate peer, [], ad.IntervalMs⟩, n)

/-- The same ring cut after a number of hops: the state counts the `Standby`
answers still to come; once it is 0 the contacted peer answers `Active`. -/
def chainTransport : Transport Nat where
  Advertise := fun n peer ad =>
    match n with
    | 0 => (Except.ok ⟨ad.GroupId, ⟨peer.Id, 0, Active⟩, ⟨peer.Id, 0, Active⟩, [],
        ad.IntervalMs⟩, 0)
    | k + 1 => (Except.ok ⟨ad.GroupId, ⟨peer.Id, 0, Standby⟩, nominate peer, [],
        ad.IntervalMs⟩, k)

/-- All peers of the sequence `ps` that carry the id `id` carry one priority:
no `Add` of the sequence changes the priority of this id. -/
def KeepsPriority (ps : List Peer) (id : String) : Prop :=
  ∀ a ∈ ps, ∀ b ∈ ps, a.Id = id → b.Id = id → a.Priority = b.Priority

/-- Two roster entries of equal priority whose ids have kept their priority
throughout the peers `pre` added so far stand in the order in which their ids
were first inserted by the sequence `ps`. -/
def StableAmong (ps pre : List Peer) (a b : Peer) : Prop :=
  a.Priority = b.Priority → KeepsPriority pre a.Id → KeepsPriority pre b.Id →
    idIndex ps a.Id < idIndex ps b.Id

/-- The result of an `Advertise` call is of no help to discovery: a transport
error, or a reply whose local state is `Init`. -/
def replyFails : Except Error Advertisement → Bool
  | Except.error _ => true
  | Except.ok adv => decide (adv.Local.State = Init)

/-- Every call of a discovery round over the peers `l` fails in the sense of
`replyFails`: the calls are the ones the round makes, one per peer in order with
the advertisement `ad`, each in the state the previous call left the transport
in, starting from `net`. -/
def allFail {σ : Type} (T : Transport σ) (ad : Advertisement) : List Peer → σ → Bool
  | [], _ => true
  | peer :: rest, net =>
    replyFails (T.Advertise net peer ad).1 && allFail T ad rest (T.Advertise net peer ad).2

/-! ## Roster lemmas -/

theorem updateExisting_eq_none {l : List Peer} {p : Peer}
    (h : p.Id ∉ l.map Peer.Id) : updateExisting l p = none := by
  induction l with
  | nil => rfl
  | cons q qs ih =>
    simp only [List.map_cons, List.mem_cons, not_or] at h
    have hq : ¬ q.Id = p.Id := fun e => h.1 e.symm
    simp [updateExisting, hq, ih h.2]

theorem updateExisting_eq_set {l : List Peer} {p : Peer}
    (h : p.Id ∈ l.map Peer.Id) : updateExisting l p = some (l.set (idIndex l p.Id) p) := by
  induction l with
  | nil => simp at h
  | cons q qs ih =>
    by_cases hq : q.Id = p.Id
    · simp [updateExisting, idIndex, hq]
    · have hmem : p.Id ∈ qs.map Peer.Id := by
        simp only [List.map_cons, List.mem_cons] at h
        rcases h with h | h
        · exact absurd h.symm hq
        · exact h
      have hne : ¬ p.Id = q.Id := fun e => hq e.symm
      have hidx : idIndex (q :: qs) p.Id = idIndex qs p.Id + 1 := by
        simp [idIndex, List.indexOf_cons, hq]
      rw [hidx]
      simp [updateExisting, hq, ih hmem]

theorem mem_insertLast {x a : Peer} {l : List Peer} :
    a ∈ insertLast x l ↔ a = x ∨ a ∈ l := by
  induction l with
  | nil => simp [insertLast]
  | cons y ys ih =>
    unfold insertLast
    split
    · simp
    · simp only [List.mem_cons, ih]
      tauto

theorem insertLast_perm (x : Peer) (l : List Peer) : (insertLast x l).Perm (x :: l) := by
  induction l with
  | nil => simp [insertLast]
  | cons y ys ih =>
    unfold insertLast
    split
    · exact List.Perm.refl _
    · exact (List.Perm.cons y ih).trans (List.Perm.swap x y ys)

theorem insertLast_of_ge {x : Peer} {l : List Peer}
    (h : ∀ a ∈ l, a.Priority ≥ x.Priority) : insertLast x l = l ++ [x] := by
  induction l with
  | nil => rfl
  | cons y ys ih =>
    have hy : ¬ (x.Priority > y.Priority) :=
      Nat.not_lt.mpr (h y (List.mem_cons_self _ _))
    have ih2 := ih (fun a ha => h a (List.mem_cons_of_mem _ ha))
    simp [insertLast, less, hy, ih2]

theorem sort_foldl_perm (acc l : List Peer) :
    (l.foldl (fun acc x => insertLast x acc) acc).Perm (acc ++ l) := by
  induction l generalizing acc with
  | nil => simp
  | cons x xs ih =>
    simp only [List.foldl_cons]
    refine (ih (insertLast x acc)).trans ?_
    have h1 : (insertLast x acc ++ xs).Perm ((x :: acc) ++ xs) :=
      List.Perm.append_right xs (insertLast_perm x acc)
    refine h1.trans ?_
    simpa using (@List.perm_middle _ x acc xs).symm

theorem sort_perm (l : PeerList) : (PeerList.sort l).Perm l := by
  simpa [PeerList.sort] using sort_foldl_perm [] l

theorem sort_foldl_of_sorted (acc l : List Peer)
    (h : (acc ++ l).Pairwise (fun a b => a.Priority ≥ b.Priority)) :
    l.foldl (fun acc x => insertLast x acc) acc = acc ++ l := by
  induction l generalizing acc with
  | nil => simp
  | cons x xs ih =>
    have hx : ∀ a ∈ acc, a.Priority ≥ x.Priority := by
      intro a ha
      rw [List.pairwise_append] at h
      exact h.2.2 a ha x (List.mem_cons_self _ _)
    simp only [List.foldl_cons, insertLast_of_ge hx]
    rw [ih (acc ++ [x]) (by simpa using h)]
    simp

theorem sort_of_sorted {l : PeerList}
    (h : l.Pairwise (fun a b => a.Priority ≥ b.Priority)) : PeerList.sort l = l := by
  simpa [PeerList.sort] using sort_foldl_of_sorted [] l (by simpa using h)

theorem sort_concat (l : PeerList) (x : Peer) :
    PeerList.sort (l ++ [x]) = insertLast x (PeerList.sort l) := by
  simp [PeerList.sort, List.foldl_append]

/-- Inserting into a roster sorted by descending priority keeps every pairwise
relation that holds between the new entry and the old ones on either side. -/
theorem insertLast_pairwise {R : Peer → Peer → Prop} {x : Peer} {l : List Peer}
    (hR : l.Pairwise R)
    (hs : l.Pairwise (fun a b => a.Priority ≥ b.Priority))
    (h1 : ∀ a ∈ l, a.Priority ≥ x.Priority → R a x)
    (h2 : ∀ a ∈ l, x.Priority > a.Priority → R x a) :
    (insertLast x l).Pairwise R := by
  induction l with
  | nil => simp [insertLast]
  | cons y ys ih =>
    rw [List.pairwise_cons] at hR hs
    unfold insertLast
    split
    · rename_i hall
      rw [List.pairwise_cons]
      refine ⟨fun a ha => h2 a ha ?_, List.pairwise_cons.2 hR⟩
      have := List.all_eq_true.1 hall a ha
      simpa [less] using this
    · rename_i hall
      have hy : y.Priority ≥ x.Priority := by
        by_contra hlt
        apply hall
        rw [List.all_eq_true]
        intro a ha
        have hxy : x.Priority > y.Priority := Nat.lt_of_not_le hlt
        rcases List.mem_cons.1 ha with rfl | ha
        · simpa [less] using hxy
        · have hya : a.Priority ≤ y.Priority := hs.1 a ha
          simpa [less] using Nat.lt_of_le_of_lt hya hxy
      rw [List.pairwise_cons]
      refine ⟨?_, ih hR.2 hs.2 (fun a ha => h1 a (List.mem_cons_of_mem _ ha))
        (fun a ha => h2 a (List.mem_cons_of_mem _ ha))⟩
      intro a ha
      rcases mem_insertLast.1 ha with rfl | ha
      · exact h1 y (List.mem_cons_self _ _) hy
      · exact hR.1 a ha

theorem Add_of_mem {l : PeerList} {p : Peer} (h : p.Id ∈ l.map Peer.Id) :
    PeerList.Add l p = l.set (idIndex l p.Id) p := by
  simp [PeerList.Add, updateExisting_eq_set h]

theorem Add_of_not_mem {l : PeerList} {p : Peer} (h : p.Id ∉ l.map Peer.Id) :
    PeerList.Add l p = insertLast p (PeerList.sort l) := by
  simp only [PeerList.Add, updateExisting_eq_none h, sort_concat]

theorem addAll_concat (ps : List Peer) (p : Peer) :
    addAll (ps ++ [p]) = PeerList.Add (addAll ps) p := by
  simp [addAll, List.foldl_append]

/-- The two ways an `Add` can go: the id is found and its first entry is
overwritten where it stands, or the id is new and the peer is sorted in. -/
theorem Add_cases (l : PeerList) (p : Peer) :
    (∃ A q B, l = A ++ q :: B ∧ PeerList.Add l p = A ++ p :: B ∧ q.Id = p.Id ∧
        ∀ a ∈ A, a.Id ≠ p.Id) ∨
    (p.Id ∉ l.map Peer.Id ∧ PeerList.Add l p = insertLast p (PeerList.sort l)) := by
  by_cases h : p.Id ∈ l.map Peer.Id
  · left
    have hex : ∃ A q B, l = A ++ q :: B ∧ updateExisting l p = some (A ++ p :: B) ∧
        q.Id = p.Id ∧ ∀ a ∈ A, a.Id ≠ p.Id := by
      clear * - h
      induction l with
      | nil => simp at h
      | cons q qs ih =>
        by_cases hq : q.Id = p.Id
        · exact ⟨[], q, qs, rfl, by simp [updateExisting, hq], hq, by simp⟩
        · have hmem : p.Id ∈ qs.map Peer.Id := by
            simp only [List.map_cons, List.mem_cons] at h
            rcases h with h | h
            · exact absurd h.symm hq
            · exact h
          obtain ⟨A, r, B, h1, h2, h3, h4⟩ := ih hmem
          refine ⟨q :: A, r, B, by simp [h1], by simp [updateExisting, hq, h2], h3, ?_⟩
          intro a ha
          rcases List.mem_cons.1 ha with rfl | ha
          · exact hq
          · exact h4 a ha
    obtain ⟨A, q, B, h1, h2, h3, h4⟩ := hex
    exact ⟨A, q, B, h1, by simp [PeerList.Add, h2], h3, h4⟩
  · right
    exact ⟨h, Add_of_not_mem h⟩

theorem idIndex_append_cons {A B : List Peer} {q : Peer} {id : String}
    (hq : q.Id = id) (hA : ∀ a ∈ A, a.Id ≠ id) : idIndex (A ++ q :: B) id = A.length := by
  induction A with
  | nil => simp [idIndex, hq]
  | cons a A ih =>
    have ha : a.Id ≠ id := hA a (List.mem_cons_self _ _)
    have ih2 := ih (fun b hb => hA b (List.mem_cons_of_mem _ hb))
    simp only [idIndex, List.map_append, List.map_cons] at ih2
    simp [idIndex, List.indexOf_cons, ha, ih2]

theorem mem_Add {l : PeerList} {p a : Peer} (h : a ∈ PeerList.Add l p) : a = p ∨ a ∈ l := by
  rcases Add_cases l p with ⟨A, q, B, h1, h2, -, -⟩ | ⟨-, h2⟩
  · rw [h2] at h
    rw [h1]
    simp only [List.mem_append, List.mem_cons] at h ⊢
    tauto
  · rw [h2, mem_insertLast] at h
    rcases h with h | h
    · exact Or.inl h
    · exact Or.inr ((sort_perm l).mem_iff.1 h)

theorem ids_Add (l : PeerList) (p : Peer) (id : String) :
    id ∈ (PeerList.Add l p).map Peer.Id ↔ id = p.Id ∨ id ∈ l.map Peer.Id := by
  rcases Add_cases l p with ⟨A, q, B, h1, h2, h3, -⟩ | ⟨-, h2⟩
  · rw [h2, h1]
    simp only [List.map_append, List.map_cons, List.mem_append, List.mem_cons, h3]
    tauto
  · rw [h2]
    have hp : ((insertLast p (PeerList.sort l)).map Peer.Id).Perm ((p :: l).map Peer.Id) :=
      ((insertLast_perm p _).trans (List.Perm.cons p (sort_perm l))).map _
    rw [hp.mem_iff]
    simp

theorem addAll_mem {ps : List Peer} {a : Peer} (h : a ∈ addAll ps) : a ∈ ps := by
  induction ps using List.reverseRecOn generalizing a with
  | nil => simp [addAll] at h
  | append_singleton pre p ih =>
    rw [addAll_concat] at h
    rcases mem_Add h with rfl | h
    · simp
    · exact List.mem_append_left _ (ih h)

theorem addAll_ids (ps : List Peer) (id : String) :
    id ∈ (addAll ps).map Peer.Id ↔ id ∈ ps.map Peer.Id := by
  induction ps using List.reverseRecOn with
  | nil => simp [addAll]
  | append_singleton pre p ih =>
    rw [addAll_concat, ids_Add, ih]
    simp only [List.map_append, List.map_cons, List.map_nil, List.mem_append,
      List.mem_singleton]
    tauto

theorem addAll_before (pre suf : List Peer)
    (hprio : ∀ a ∈ pre ++ suf, ∀ b ∈ pre ++ suf, a.Id = b.Id → a.Priority = b.Priority) :
    (addAll pre).Pairwise (Before (pre ++ suf)) := by
  induction pre using List.reverseRecOn generalizing suf with
  | nil => simp [addAll]
  | append_singleton pre p ih =>
    have hassoc : pre ++ [p] ++ suf = pre ++ (p :: suf) := by simp
    rw [hassoc] at hprio ⊢
    have hl := ih (p :: suf) hprio
    have hpmem : p ∈ pre ++ p :: suf := by simp
    rw [addAll_concat]
    rcases Add_cases (addAll pre) p with ⟨A, q, B, h1, h2, h3, -⟩ | ⟨hnew, h2⟩
    · have hq : q ∈ pre ++ p :: suf := by
        apply List.mem_append_left
        apply addAll_mem
        rw [h1]; simp
      have hpr : q.Priority = p.Priority := hprio q hq p hpmem h3
      have key1 : ∀ c, Before (pre ++ p :: suf) q c ↔ Before (pre ++ p :: suf) p c := by
        intro c; simp only [Before, h3, hpr]
      have key2 : ∀ c, Before (pre ++ p :: suf) c q ↔ Before (pre ++ p :: suf) c p := by
        intro c; simp only [Before, h3, hpr]
      rw [h1] at hl
      rw [h2]
      simp only [List.pairwise_append, List.pairwise_cons, List.mem_cons, forall_eq_or_imp,
        key1, key2] at hl ⊢
      exact hl
    · have hs : (addAll pre).Pairwise (fun a b => a.Priority ≥ b.Priority) := by
        refine hl.imp ?_
        intro a b hab
        rcases hab with hab | hab
        · exact Nat.le_of_lt hab
        · exact Nat.le_of_eq hab.1.symm
      rw [h2, sort_of_sorted hs]
      refine insertLast_pairwise hl hs ?_ ?_
      · intro a ha hge
        rcases Nat.lt_or_eq_of_le hge with hlt | heq
        · exact Or.inl hlt
        · refine Or.inr ⟨heq.symm, ?_⟩
          have ha1 : a.Id ∈ pre.map Peer.Id := List.mem_map_of_mem _ (addAll_mem ha)
          have hp1 : p.Id ∉ pre.map Peer.Id := fun hc => hnew ((addAll_ids pre p.Id).2 hc)
          have e1 : idIndex (pre ++ p :: suf) a.Id < pre.length := by
            simp only [idIndex, List.map_append]
            rw [List.indexOf_append_of_mem ha1]
            simpa using List.indexOf_lt_length.2 ha1
          have e2 : idIndex (pre ++ p :: suf) p.Id = pre.length := by
            simp only [idIndex, List.map_append]
            rw [List.indexOf_append_of_not_mem hp1]
            simp
          omega
      · intro a _ hlt
        exact Or.inl hlt

/-! ## Roster claims -/

/-- C1 (as stated) fails: after `Add`ing `a`/100, `b`/90 and then `b` again with
priority 110, the roster is `[a/100, b/110]`, which is not sorted by descending
priority; and after `a`/90, `b`/100, `a`/100 the two entries of priority 100
stand as `b, a` although `a` was inserted first. -/
theorem C1_counterexample :
    ¬ SortedDesc (addAll [⟨"a", 100, Unknown⟩, ⟨"b", 90, Unknown⟩, ⟨"b", 110, Unknown⟩]) ∧
    ¬ InsertionOrdered [⟨"a", 90, Unknown⟩, ⟨"b", 100, Unknown⟩, ⟨"a", 100, Unknown⟩]
      (addAll [⟨"a", 90, Unknown⟩, ⟨"b", 100, Unknown⟩, ⟨"a", 100, Unknown⟩]) := by
  constructor
  · rw [show addAll [⟨"a", 100, Unknown⟩, ⟨"b", 90, Unknown⟩, ⟨"b", 110, Unknown⟩]
      = [⟨"a", 100, Unknown⟩, ⟨"b", 110, Unknown⟩] from by decide]
    simp [SortedDesc]
  · decide

/-- C2: `Add` of a peer whose id already occurs keeps the length, writes the peer
at the index of the first entry with that id and leaves every other position as
it was; nothing is re-sorted, whatever the new priority. -/
theorem C2_add_existing_in_place (l : PeerList) (p : Peer)
    (h : p.Id ∈ l.map Peer.Id) :
    (PeerList.Add l p).length = l.length ∧
    idIndex l p.Id < l.length ∧
    (∃ q, l[idIndex l p.Id]? = some q ∧ q.Id = p.Id) ∧
    (∀ j q, j < idIndex l p.Id → l[j]? = some q → q.Id ≠ p.Id) ∧
    PeerList.Add l p = l.set (idIndex l p.Id) p ∧
    (PeerList.Add l p)[idIndex l p.Id]? = some p ∧
    (∀ j, j ≠ idIndex l p.Id → (PeerList.Add l p)[j]? = l[j]?) := by
  rcases Add_cases l p with ⟨A, q, B, h1, -, h3, h4⟩ | ⟨hnew, -⟩
  · have hk : idIndex l p.Id = A.length := by rw [h1]; exact idIndex_append_cons h3 h4
    have hlt : A.length < l.length := by rw [h1]; simp
    rw [Add_of_mem h, hk]
    refine ⟨by simp, hlt, ⟨q, ?_, h3⟩, ?_, rfl, ?_, ?_⟩
    · rw [h1, List.getElem?_append_right (Nat.le_refl _)]; simp
    · intro j r hj hr
      rw [h1, List.getElem?_append_left hj] at hr
      exact h4 r (List.getElem?_mem hr)
    · rw [List.getElem?_set_self hlt]
    · intro j hj
      exact List.getElem?_set_ne (Ne.symm hj)
  · exact absurd h hnew

theorem C2_add_existing_in_place_witness :
    (PeerList.Add [⟨"a", 100, Unknown⟩, ⟨"b", 90, Unknown⟩]
        ⟨"b", 110, Active⟩).length = 2 ∧
    PeerList.Add [⟨"a", 100, Unknown⟩, ⟨"b", 90, Unknown⟩] ⟨"b", 110, Active⟩
      = [⟨"a", 100, Unknown⟩, ⟨"b", 110, Active⟩] :=
  have h := C2_add_existing_in_place [⟨"a", 100, Unknown⟩, ⟨"b", 90, Unknown⟩]
    ⟨"b", 110, Active⟩ (by decide)
  ⟨h.1, by decide⟩

/-- C3: `Add` keeps the ids of a roster pairwise distinct and leaves exactly one
entry with the added peer's id, the added peer itself; hence every roster built
from the empty list by `Add` alone, such as the one `New` builds from its
`peerIds` (repeated or not), has pairwise distinct ids. -/
theorem C3_add_unique_ids (l : PeerList) (p : Peer) (h : UniqueIds l) :
    UniqueIds (PeerList.Add l p) ∧
    (PeerList.Add l p).filter (fun q => decide (q.Id = p.Id)) = [p] ∧
    (∀ ps : List Peer, UniqueIds (addAll ps)) ∧
    (∀ (gid lid : String) (prio ms : Nat) (cbA cbS : Bool) (peerIds : List String),
      UniqueIds (New gid lid prio ms cbA cbS peerIds).standby) := by
  have step : ∀ (l : PeerList) (p : Peer), UniqueIds l →
      UniqueIds (PeerList.Add l p) ∧
      (PeerList.Add l p).filter (fun q => decide (q.Id = p.Id)) = [p] := by
    intro l p h
    rcases Add_cases l p with ⟨A, q, B, h1, h2, h3, h4⟩ | ⟨hnew, h2⟩
    · have hmap : (A ++ p :: B).map Peer.Id = l.map Peer.Id := by rw [h1]; simp [h3]
      refine ⟨by rw [h2]; unfold UniqueIds; rw [hmap]; exact h, ?_⟩
      have hB : ∀ b ∈ B, b.Id ≠ p.Id := by
        intro b hb hbp
        unfold UniqueIds at h
        rw [h1] at h
        simp only [List.map_append, List.map_cons] at h
        have h5 := (List.nodup_cons.1 (List.nodup_append.1 h).2.1).1
        exact h5 (by rw [h3, ← hbp]; exact List.mem_map_of_mem _ hb)
      rw [h2, List.filter_append, List.filter_cons]
      have e1 : A.filter (fun q => decide (q.Id = p.Id)) = [] := by
        rw [List.filter_eq_nil_iff]
        intro a ha
        simpa using h4 a ha
      have e2 : B.filter (fun q => decide (q.Id = p.Id)) = [] := by
        rw [List.filter_eq_nil_iff]
        intro b hb
        simpa using hB b hb
      simp [e1, e2]
    · have hperm : (PeerList.Add l p).Perm (p :: l) := by
        rw [h2]
        exact (insertLast_perm p _).trans (List.Perm.cons p (sort_perm l))
      constructor
      · unfold UniqueIds
        rw [(hperm.map Peer.Id).nodup_iff]
        simp only [List.map_cons]
        exact List.nodup_cons.2 ⟨hnew, h⟩
      · have hf := hperm.filter (fun q => decide (q.Id = p.Id))
        have e2 : l.filter (fun q => decide (q.Id = p.Id)) = [] := by
          rw [List.filter_eq_nil_iff]
          intro b hb
          have : b.Id ≠ p.Id := fun hbp => hnew (by rw [← hbp]; exact List.mem_map_of_mem _ hb)
          simpa using this
        rw [List.filter_cons, e2] at hf
        simpa using hf
  have all : ∀ ps : List Peer, UniqueIds (addAll ps) := by
    intro ps
    induction ps using List.reverseRecOn with
    | nil => simp [addAll, UniqueIds]
    | append_singleton pre p ih =>
      rw [addAll_concat]
      exact (step _ p ih).1
  refine ⟨(step l p h).1, (step l p h).2, all, ?_⟩
  intro gid lid prio ms cbA cbS peerIds
  have e : (New gid lid prio ms cbA cbS peerIds).standby
      = addAll (peerIds.map (fun pId => ⟨pId, DefaultPriority, Unknown⟩)) := by
    simp [New, addAll, List.foldl_map]
  rw [e]
  exact all _

theorem C3_add_unique_ids_witness :
    UniqueIds (PeerList.Add [⟨"a", 100, Unknown⟩, ⟨"b", 90, Unknown⟩] ⟨"b", 110, Active⟩) ∧
    (PeerList.Add [⟨"a", 100, Unknown⟩, ⟨"b", 90, Unknown⟩] ⟨"b", 110, Active⟩).filter
      (fun q => decide (q.Id = "b")) = [⟨"b", 110, Active⟩] :=
  have h := C3_add_unique_ids [⟨"a", 100, Unknown⟩, ⟨"b", 90, Unknown⟩]
    ⟨"b", 110, Active⟩ (by simp [UniqueIds])
  ⟨h.1, h.2.1⟩

/-! ## Discovery claims -/

/-- The group as `StateInit` sees it after its first assignment
`g.local.State = Init`. -/
theorem StateInit_nonempty {σ : Type} (T : Transport σ) (fuel : Nat) (e : Engine σ)
    (h : e.g.standby ≠ []) :
    StateInit T fuel e = initSearch T fuel e.g.standby false (enterInit e) := by
  have hlen : ¬ e.g.standby.length = 0 := by
    intro hc
    exact h (List.length_eq_zero.1 hc)
  simp [StateInit, enterInit, hlen]

/-- C4: with an empty standby roster `StateInit` returns with `local.State =
Active` and `active = local`, having called the become-active callback once, the
become-standby callback never, and `Transport.Advertise` never. -/
theorem C4_no_peers_bootstrap {σ : Type} (T : Transport σ) (fuel : Nat) (g : Group) (net : σ)
    (hempty : g.standby = []) (hcb : g.becomeActive = true) :
    ∃ e', StateInit T fuel (start g net) = some e' ∧
      e'.g.local.State = Active ∧ e'.g.active = e'.g.local ∧
      e'.trace = [Effect.becomeActive] ∧
      activeCount e'.trace = 1 ∧ standbyCount e'.trace = 0 ∧ advertiseCount e'.trace = 0 := by
  refine ⟨stateActive (enterInit (start g net)), by simp [StateInit, enterInit, start, hempty], ?_⟩
  simp [stateActive, enterInit, start, hcb, activeCount, standbyCount, advertiseCount]

theorem C4_no_peers_bootstrap_witness :
    ∃ e', StateInit mockTransport 0
        (start (New "group1" "node1" DefaultPriority 1000 true true []) []) = some e' ∧
      e'.g.local.State = Active ∧ e'.g.active = e'.g.local ∧
      e'.trace = [Effect.becomeActive] ∧
      activeCount e'.trace = 1 ∧ standbyCount e'.trace = 0 ∧ advertiseCount e'.trace = 0 :=
  C4_no_peers_bootstrap mockTransport 0 _ [] (by decide) (by decide)

theorem findActive_error {σ : Type} (T : Transport σ) (fuel : Nat) (peer : Peer)
    (e : Engine σ) (err : Error) (net1 : σ)
    (h : T.Advertise e.net peer e.g.advertisement = (Except.error err, net1)) :
    findActive T (fuel + 1) peer e = some (Except.error err, afterCall e peer net1) := by
  simp [findActive, callAdvertise, h]

theorem findActive_active {σ : Type} (T : Transport σ) (fuel : Nat) (peer : Peer)
    (e : Engine σ) (adv : Advertisement) (net1 : σ)
    (h : T.Advertise e.net peer e.g.advertisement = (Except.ok adv, net1))
    (hact : adv.Local.State = Active) :
    findActive T (fuel + 1) peer e = some (Except.ok adv, afterCall e peer net1) := by
  simp [findActive, callAdvertise, h, hact]

theorem findActive_nominated {σ : Type} (T : Transport σ) (fuel : Nat) (peer : Peer)
    (e : Engine σ) (adv : Advertisement) (net1 : σ)
    (h : T.Advertise e.net peer e.g.advertisement = (Except.ok adv, net1))
    (hst : adv.Local.State = Standby) (hnom : adv.Active.Id = e.g.local.Id) :
    findActive T (fuel + 1) peer e = some (Except.ok adv, afterCall e peer net1) := by
  have hne : ¬ Standby = Active := by decide
  simp [findActive, callAdvertise, h, hst, hne, hnom, afterCall]

theorem findActive_chain {σ : Type} (T : Transport σ) (fuel : Nat) (peer : Peer)
    (e : Engine σ) (adv : Advertisement) (net1 : σ)
    (h : T.Advertise e.net peer e.g.advertisement = (Except.ok adv, net1))
    (hst : adv.Local.State = Standby) (hnom : adv.Active.Id ≠ e.g.local.Id) :
    findActive T (fuel + 1) peer e = findActive T fuel adv.Active (afterCall e peer net1) := by
  have hne : ¬ Standby = Active := by decide
  simp [findActive, callAdvertise, h, hst, hne, hnom, afterCall]

theorem findActive_init {σ : Type} (T : Transport σ) (fuel : Nat) (peer : Peer)
    (e : Engine σ) (adv : Advertisement) (net1 : σ)
    (h : T.Advertise e.net peer e.g.advertisement = (Except.ok adv, net1))
    (h1 : adv.Local.State ≠ Active) (h2 : adv.Local.State ≠ Standby) :
    findActive T (fuel + 1) peer e
      = some (Except.error Error.ErrPeerIsInit, afterCall e peer net1) := by
  simp [findActive, callAdvertise, h, h1, h2]

theorem initSearch_ok {σ : Type} (T : Transport σ) (fuel : Nat) (peer : Peer)
    (rest : List Peer) (c : Bool) (e e1 : Engine σ) (adv : Advertisement)
    (h : findActive T fuel peer e = some (Except.ok adv, e1)) :
    initSearch T fuel (peer :: rest) c e = some (adopt adv e1) := by
  simp [initSearch, h]

theorem initSearch_error {σ : Type} (T : Transport σ) (fuel : Nat) (peer : Peer)
    (rest : List Peer) (c : Bool) (e e1 : Engine σ) (err : Error)
    (h : findActive T fuel peer e = some (Except.error err, e1)) :
    initSearch T fuel (peer :: rest) c e = initSearch T fuel rest c e1 := by
  simp [initSearch, h]

/-- C5: with a single known peer whose reply to the first `Advertise` reports
`local.state = Active`, `StateInit` makes exactly one `Advertise` call and ends
`Standby`, with the become-standby callback called once, the become-active
callback never, `active` the reply's `Local` and `standby` the reply's roster. -/
theorem C5_single_peer_active {σ : Type} (T : Transport σ) (fuel : Nat) (g : Group) (net net1 : σ)
    (peer : Peer) (reply : Advertisement)
    (hone : g.standby = [peer])
    (hreply : T.Advertise net peer (initView g) = (Except.ok reply, net1))
    (hact : reply.Local.State = Active)
    (hcb : g.becomeStandby = true) :
    ∃ e', StateInit T (fuel + 1) (start g net) = some e' ∧
      e'.trace = [Effect.advertise peer (initView g), Effect.becomeStandby] ∧
      advertiseCount e'.trace = 1 ∧
      e'.g.local.State = Standby ∧
      standbyCount e'.trace = 1 ∧ activeCount e'.trace = 0 ∧
      e'.g.active = reply.Local ∧ e'.g.standby = reply.Standby := by
  have hne : (start g net).g.standby ≠ [] := by simp [start, hone]
  have hfind := findActive_active T fuel peer (enterInit (start g net)) reply net1 hreply hact
  refine ⟨adopt reply (afterCall (enterInit (start g net)) peer net1), ?_, ?_⟩
  · rw [StateInit_nonempty T _ _ hne]
    have hs : (start g net).g.standby = [peer] := hone
    rw [hs]
    exact initSearch_ok T _ peer [] false _ _ reply hfind
  · simp [adopt, afterCall, enterInit, stateStandby, hcb, start, initView, advertiseCount,
      standbyCount, activeCount]

theorem C5_single_peer_active_witness :
    ∃ e', StateInit mockTransport (0 + 1)
        (start (New "group1" "node1" DefaultPriority 1000 true true ["node2"])
          [Except.ok ⟨"", ⟨"", 0, Active⟩, Peer.zero, [], 0⟩]) = some e' ∧
      e'.trace = [Effect.advertise ⟨"node2", DefaultPriority, Unknown⟩
          (initView (New "group1" "node1" DefaultPriority 1000 true true ["node2"])),
        Effect.becomeStandby] ∧
      advertiseCount e'.trace = 1 ∧
      e'.g.local.State = Standby ∧
      standbyCount e'.trace = 1 ∧ activeCount e'.trace = 0 ∧
      e'.g.active = (⟨"", ⟨"", 0, Active⟩, Peer.zero, [], 0⟩ : Advertisement).Local ∧
      e'.g.standby = (⟨"", ⟨"", 0, Active⟩, Peer.zero, [], 0⟩ : Advertisement).Standby :=
  C5_single_peer_active mockTransport 0
    (New "group1" "node1" DefaultPriority 1000 true true ["node2"])
    [Except.ok ⟨"", ⟨"", 0, Active⟩, Peer.zero, [], 0⟩] []
    ⟨"node2", DefaultPriority, Unknown⟩ ⟨"", ⟨"", 0, Active⟩, Peer.zero, [], 0⟩
    (by decide) (by rfl) (by rfl) (by rfl)

/-- C6 (as stated) fails: the sole known peer `node2` replies `Standby` naming
`node3` as active, and the reply to the second `Advertise` reports
`local.state = Active` under another id (`10.0.0.3`); `StateInit` makes its two
calls and ends `Standby`, but with `active.Id = 10.0.0.3`, not `node3`. -/
theorem C6_counterexample :
    (StateInit mockTransport 2
        (start (New "group1" "node1" DefaultPriority 1000 true true ["node2"])
          [Except.ok ⟨"group1", ⟨"node2", 100, Standby⟩, ⟨"node3", 100, Active⟩, [], 1000⟩,
           Except.ok ⟨"group1", ⟨"10.0.0.3", 100, Active⟩, Peer.zero, [], 1000⟩])).map
      (fun e => (advertiseCount e.trace, e.g.local.State, e.g.active.Id))
      = some (2, Standby, "10.0.0.3") ∧
    "10.0.0.3" ≠ "node3" := by
  decide

/-- C6 (amended): when the sole known peer replies `Standby` naming as active a
peer `X` other than the local engine, and the next `Advertise` is answered with
`local.state = Active`, `StateInit` makes exactly two `Advertise` calls, the
second to the peer `X` of the first reply, and ends `Standby` with the
become-standby callback called once and the become-active callback never; the
engine's `active` is the `Local` of the second reply (and `standby` its roster),
so `active.Id = X` exactly when that reply carries the id `X`. -/
theorem C6_chained_discovery {σ : Type} (T : Transport σ) (fuel : Nat) (g : Group)
    (net net1 net2 : σ) (peer : Peer) (reply1 reply2 : Advertisement)
    (hone : g.standby = [peer])
    (hreply1 : T.Advertise net peer (initView g) = (Except.ok reply1, net1))
    (hst : reply1.Local.State = Standby)
    (hX : reply1.Active.Id ≠ g.local.Id)
    (hreply2 : T.Advertise net1 reply1.Active (initView g) = (Except.ok reply2, net2))
    (hact : reply2.Local.State = Active)
    (hcb : g.becomeStandby = true) :
    ∃ e', StateInit T (fuel + 2) (start g net) = some e' ∧
      e'.trace = [Effect.advertise peer (initView g),
        Effect.advertise reply1.Active (initView g), Effect.becomeStandby] ∧
      advertiseCount e'.trace = 2 ∧
      e'.g.local.State = Standby ∧
      standbyCount e'.trace = 1 ∧ activeCount e'.trace = 0 ∧
      e'.g.active = reply2.Local ∧ e'.g.standby = reply2.Standby ∧
      (e'.g.active.Id = reply1.Active.Id ↔ reply2.Local.Id = reply1.Active.Id) := by
  have hne : (start g net).g.standby ≠ [] := by simp [start, hone]
  have hf1 := findActive_chain T (fuel + 1) peer (enterInit (start g net)) reply1 net1
    hreply1 hst hX
  have hf2 := findActive_active T fuel reply1.Active
    (afterCall (enterInit (start g net)) peer net1) reply2 net2 hreply2 hact
  refine ⟨adopt reply2
    (afterCall (afterCall (enterInit (start g net)) peer net1) reply1.Active net2), ?_, ?_⟩
  · rw [StateInit_nonempty T _ _ hne]
    have hs : (start g net).g.standby = [peer] := hone
    rw [hs]
    exact initSearch_ok T _ peer [] false _ _ reply2 (hf1.trans hf2)
  · simp [adopt, afterCall, enterInit, stateStandby, hcb, start, initView, advertiseCount,
      standbyCount, activeCount]

theorem C6_chained_discovery_witness :
    ∃ e', StateInit mockTransport (0 + 2)
        (start (New "group1" "node1" DefaultPriority 1000 true true ["node2"])
          [Except.ok ⟨"", ⟨"", 0, Standby⟩, ⟨"node3", 0, Active⟩, [], 0⟩,
           Except.ok ⟨"", ⟨"node3", 0, Active⟩, Peer.zero, [], 0⟩]) = some e' ∧
      e'.trace = [Effect.advertise ⟨"node2", DefaultPriority, Unknown⟩
          (initView (New "group1" "node1" DefaultPriority 1000 true true ["node2"])),
        Effect.advertise ⟨"node3", 0, Active⟩
          (initView (New "group1" "node1" DefaultPriority 1000 true true ["node2"])),
        Effect.becomeStandby] ∧
      advertiseCount e'.trace = 2 ∧
      e'.g.local.State = Standby ∧
      standbyCount e'.trace = 1 ∧ activeCount e'.trace = 0 ∧
      e'.g.active = ⟨"node3", 0, Active⟩ ∧ e'.g.standby = [] ∧
      (e'.g.active.Id = "node3" ↔ "node3" = "node3") :=
  C6_chained_discovery mockTransport 0
    (New "group1" "node1" DefaultPriority 1000 true true ["node2"])
    [Except.ok ⟨"", ⟨"", 0, Standby⟩, ⟨"node3", 0, Active⟩, [], 0⟩,
     Except.ok ⟨"", ⟨"node3", 0, Active⟩, Peer.zero, [], 0⟩]
    [Except.ok ⟨"", ⟨"node3", 0, Active⟩, Peer.zero, [], 0⟩] []
    ⟨"node2", DefaultPriority, Unknown⟩
    ⟨"", ⟨"", 0, Standby⟩, ⟨"node3", 0, Active⟩, [], 0⟩
    ⟨"", ⟨"node3", 0, Active⟩, Peer.zero, [], 0⟩
    (by decide) (by rfl) (by rfl) (by decide) (by rfl) (by rfl) (by rfl)

/-- C7 (the code at the failing input): local `node1` knows `node2` and `node3`;
`node2` replies `Standby` and names `node1` as active, `node3` would report
`Init`.  `StateInit` stops at `node2`: one `Advertise` call, `local.State =
Standby`, `active` is the nominating peer `node2`, the become-standby callback is
called once and the become-active callback never. -/
theorem C7_nomination_adopted :
    (StateInit mockTransport 2
        (start (New "group1" "node1" DefaultPriority 1000 true true ["node2", "node3"])
          [Except.ok ⟨"group1", ⟨"node2", 100, Standby⟩, ⟨"node1", 100, Unknown⟩, [], 1000⟩,
           Except.ok ⟨"group1", ⟨"node3", 100, Init⟩, Peer.zero, [], 1000⟩])).map
      (fun e => (advertiseCount e.trace, e.g.local.State, e.g.active.Id,
        activeCount e.trace, standbyCount e.trace))
      = some (1, Standby, "node2", 0, 1) := by
  decide

/-! ## Event-loop claims -/

theorem repliesTo_append (ad : Advertisement) (t1 t2 : List Effect) :
    repliesTo ad (t1 ++ t2) = repliesTo ad t1 ++ repliesTo ad t2 := by
  simp [repliesTo, List.filterMap_append]

theorem onAdvertisement_init_higher {σ : Type} (ad : Advertisement) (e : Engine σ)
    (h1 : e.g.local.State = Init) (h2 : ad.Local.Priority > e.g.local.Priority) :
    onAdvertisement ad e
      = respond ad (stateStandby { e with g := { e.g with active := ad.Local } }) := by
  unfold onAdvertisement inboundBranches
  rw [if_pos h1, if_pos h2]
  rfl

theorem onAdvertisement_init_other {σ : Type} (ad : Advertisement) (e : Engine σ)
    (h1 : e.g.local.State = Init) (h2 : ¬ ad.Local.Priority > e.g.local.Priority) :
    onAdvertisement ad e = respond ad (stateActive
      { e with g := { e.g with standby := PeerList.Add e.g.standby ad.Local } }) := by
  unfold onAdvertisement inboundBranches
  rw [if_pos h1, if_neg h2]
  rfl

theorem onAdvertisement_active {σ : Type} (ad : Advertisement) (e : Engine σ)
    (h : e.g.local.State = Active) :
    onAdvertisement ad e = respond ad
      { e with g := { e.g with standby := PeerList.Add e.g.standby ad.Local } } := by
  have h1 : ¬ e.g.local.State = Init := by rw [h]; decide
  unfold onAdvertisement inboundBranches
  rw [if_neg h1, if_pos h]
  rfl

theorem onAdvertisement_standby_new {σ : Type} (ad : Advertisement) (e : Engine σ)
    (h : e.g.local.State = Standby) (h2 : ad.Local.State ≠ Active) :
    onAdvertisement ad e = respond ad e := by
  have h1 : ¬ e.g.local.State = Init := by rw [h]; decide
  have h3 : ¬ e.g.local.State = Active := by rw [h]; decide
  unfold onAdvertisement inboundBranches
  rw [if_neg h1, if_neg h3, if_pos h, if_pos h2]
  rfl

theorem onAdvertisement_standby_heartbeat {σ : Type} (ad : Advertisement) (e : Engine σ)
    (h : e.g.local.State = Standby) (h2 : ad.Local.State = Active) :
    onAdvertisement ad e = respond ad
      { e with g := { e.g with active := ad.Active, standby := ad.Standby },
               activeDownCount := 0 } := by
  have h1 : ¬ e.g.local.State = Init := by rw [h]; decide
  have h3 : ¬ e.g.local.State = Active := by rw [h]; decide
  have h4 : ¬ ad.Local.State ≠ Active := fun hc => hc h2
  unfold onAdvertisement inboundBranches
  rw [if_neg h1, if_neg h3, if_pos h, if_neg h4]
  by_cases h5 : e.g.active.Id ≠ ad.Active.Id ∧ ad.Active.Id ≠ ""
  · simp only [if_pos h5]; rfl
  · simp only [if_neg h5]; rfl

theorem onAdvertisement_other {σ : Type} (ad : Advertisement) (e : Engine σ)
    (h1 : e.g.local.State ≠ Init) (h2 : e.g.local.State ≠ Active)
    (h3 : e.g.local.State ≠ Standby) :
    onAdvertisement ad e = respond ad e := by
  unfold onAdvertisement inboundBranches
  rw [if_neg h1, if_neg h2, if_neg h3]
  rfl

/-- What one inbound advertisement adds to the trace: at most one role callback,
then the reply. -/
theorem onAdvertisement_trace {σ : Type} (ad : Advertisement) (e : Engine σ) :
    ∃ mid, (onAdvertisement ad e).trace
        = e.trace ++ mid ++ [Effect.respond ad (onAdvertisement ad e).g.advertisement] ∧
      (mid = [] ∨ mid = [Effect.becomeActive] ∨ mid = [Effect.becomeStandby]) := by
  by_cases h1 : e.g.local.State = Init
  · by_cases h2 : ad.Local.Priority > e.g.local.Priority
    · rw [onAdvertisement_init_higher ad e h1 h2]
      by_cases hcb : e.g.becomeStandby = true
      · exact ⟨[Effect.becomeStandby], by simp [hcb, stateStandby, respond], by simp⟩
      · exact ⟨[], by simp [hcb, stateStandby, respond], by simp⟩
    · rw [onAdvertisement_init_other ad e h1 h2]
      by_cases hcb : e.g.becomeActive = true
      · exact ⟨[Effect.becomeActive], by simp [hcb, stateActive, respond], by simp⟩
      · exact ⟨[], by simp [hcb, stateActive, respond], by simp⟩
  · by_cases h3 : e.g.local.State = Active
    · rw [onAdvertisement_active ad e h3]
      exact ⟨[], by simp [respond], by simp⟩
    · by_cases h4 : e.g.local.State = Standby
      · by_cases h5 : ad.Local.State = Active
        · rw [onAdvertisement_standby_heartbeat ad e h4 h5]
          exact ⟨[], by simp [respond], by simp⟩
        · rw [onAdvertisement_standby_new ad e h4 h5]
          exact ⟨[], by simp [respond], by simp⟩
      · rw [onAdvertisement_other ad e h1 h3 h4]
        exact ⟨[], by simp [respond], by simp⟩

/-- C8: whatever the engine state and the inbound advertisement, the handler sends
exactly one value on that advertisement's response slot, as its last effect, and
the value is the engine's view `g.advertisement()` at that moment (nothing
changes the group after the send). -/
theorem C8_reply_exactly_once {σ : Type} (ad : Advertisement) (e : Engine σ) :
    (∃ mid, (onAdvertisement ad e).trace
        = e.trace ++ mid ++ [Effect.respond ad (onAdvertisement ad e).g.advertisement] ∧
      ∀ x ∈ mid, x = Effect.becomeActive ∨ x = Effect.becomeStandby) ∧
    repliesTo ad (onAdvertisement ad e).trace
      = repliesTo ad e.trace ++ [(onAdvertisement ad e).g.advertisement] ∧
    (repliesTo ad (onAdvertisement ad e).trace).length
      = (repliesTo ad e.trace).length + 1 := by
  obtain ⟨mid, htr, hmid⟩ := onAdvertisement_trace ad e
  have hm : repliesTo ad mid = [] := by
    rcases hmid with h | h | h <;> simp [h, repliesTo]
  have hrep : repliesTo ad (onAdvertisement ad e).trace
      = repliesTo ad e.trace ++ [(onAdvertisement ad e).g.advertisement] := by
    rw [htr, repliesTo_append, repliesTo_append, hm]
    simp [repliesTo]
  refine ⟨⟨mid, htr, ?_⟩, hrep, by rw [hrep]; simp⟩
  intro x hx
  rcases hmid with h | h | h <;> simp [h] at hx <;> simp [hx]

/-! ### Heartbeat ticks -/

theorem fanOut_keeps {σ : Type} (T : Transport σ) (l : List Peer) (e : Engine σ) :
    (fanOut T l e).g = e.g ∧ (fanOut T l e).activeDownCount = e.activeDownCount ∧
    activeCount (fanOut T l e).trace = activeCount e.trace ∧
    standbyCount (fanOut T l e).trace = standbyCount e.trace := by
  induction l generalizing e with
  | nil => simp [fanOut]
  | cons p rest ih =>
    have h := ih (callAdvertise T p e).2
    simp only [fanOut]
    refine ⟨h.1.trans rfl, h.2.1.trans rfl, h.2.2.1.trans ?_, h.2.2.2.trans ?_⟩
    · simp [callAdvertise, afterCall, activeCount]
    · simp [callAdvertise, afterCall, standbyCount]

theorem ticks_add {σ : Type} (T : Transport σ) (m n : Nat) (e : Engine σ) :
    ticks T (m + n) e = ticks T n (ticks T m e) := by
  induction m generalizing e with
  | zero => simp [ticks]
  | succ m ih =>
    have h : m + 1 + n = (m + n) + 1 := by omega
    rw [h]
    simp only [ticks]
    exact ih (onTick T e)

/-- An `Active` engine stays as it is under ticks: the group and the counter are
untouched and no role callback is called. -/
theorem ticks_active {σ : Type} (T : Transport σ) (n : Nat) (e : Engine σ)
    (h : e.g.local.State = Active) :
    (ticks T n e).g = e.g ∧ (ticks T n e).activeDownCount = e.activeDownCount ∧
    activeCount (ticks T n e).trace = activeCount e.trace ∧
    standbyCount (ticks T n e).trace = standbyCount e.trace := by
  induction n generalizing e with
  | zero => simp [ticks]
  | succ n ih =>
    have ht : onTick T e = fanOut T e.g.standby e := by
      unfold onTick
      rw [if_pos h]
    have hk := fanOut_keeps T e.g.standby e
    simp only [ticks, ht]
    have h2 := ih (fanOut T e.g.standby e) (by rw [hk.1]; exact h)
    exact ⟨h2.1.trans hk.1, h2.2.1.trans hk.2.1, h2.2.2.1.trans hk.2.2.1,
      h2.2.2.2.trans hk.2.2.2⟩

/-- Below the threshold a tick of a `Standby` engine only counts. -/
theorem onTick_standby_wait {σ : Type} (T : Transport σ) (e : Engine σ)
    (h : e.g.local.State = Standby) (hc : e.activeDownCount + 1 ≤ 3) :
    onTick T e = { e with activeDownCount := e.activeDownCount + 1 } := by
  have h1 : ¬ e.g.local.State = Active := by rw [h]; decide
  have h2 : ¬ (e.activeDownCount + 1 > 3) := by omega
  unfold onTick
  rw [if_neg h1]
  simp only [if_neg h2]

/-- Past the threshold a tick of a `Standby` engine pops a roster head that is
not the engine itself and goes on waiting. -/
theorem onTick_standby_pop {σ : Type} (T : Transport σ) (e : Engine σ)
    (next : Peer) (rest : List Peer)
    (h : e.g.local.State = Standby) (hc : e.activeDownCount ≥ 3)
    (hr : e.g.standby = next :: rest) (hn : next.Id ≠ e.g.local.Id) :
    onTick T e = { e with g := { e.g with standby := rest },
                          activeDownCount := e.activeDownCount + 1 } := by
  have h1 : ¬ e.g.local.State = Active := by rw [h]; decide
  have h0 : ¬ e.g.local.State = Init := by rw [h]; decide
  have h2 : e.activeDownCount + 1 > 3 := by omega
  unfold onTick
  rw [if_neg h1]
  simp only [if_pos h2, if_neg h0, hr, if_neg hn]

/-- Past the threshold a tick of a `Standby` engine whose roster head is the
engine itself pops it and claims `Active`. -/
theorem onTick_standby_turn {σ : Type} (T : Transport σ) (e : Engine σ)
    (next : Peer) (rest : List Peer)
    (h : e.g.local.State = Standby) (hc : e.activeDownCount ≥ 3)
    (hr : e.g.standby = next :: rest) (hn : next.Id = e.g.local.Id) :
    onTick T e = stateActive { e with g := { e.g with standby := rest },
                                       activeDownCount := e.activeDownCount + 1 } := by
  have h1 : ¬ e.g.local.State = Active := by rw [h]; decide
  have h0 : ¬ e.g.local.State = Init := by rw [h]; decide
  have h2 : e.activeDownCount + 1 > 3 := by omega
  unfold onTick
  rw [if_neg h1]
  simp only [if_pos h2, if_neg h0, hr, if_pos hn]

/-- Past the threshold a tick of a `Standby` engine with an empty roster claims
`Active`. -/
theorem onTick_standby_empty {σ : Type} (T : Transport σ) (e : Engine σ)
    (h : e.g.local.State = Standby) (hc : e.activeDownCount ≥ 3)
    (hr : e.g.standby = []) :
    onTick T e = stateActive { e with activeDownCount := e.activeDownCount + 1 } := by
  have h1 : ¬ e.g.local.State = Active := by rw [h]; decide
  have h0 : ¬ e.g.local.State = Init := by rw [h]; decide
  have h2 : e.activeDownCount + 1 > 3 := by omega
  unfold onTick
  rw [if_neg h1]
  simp only [if_pos h2, if_neg h0, hr]

theorem stateActive_state {σ : Type} (e : Engine σ) :
    (stateActive e).g.local.State = Active := by
  by_cases h : e.g.becomeActive = true <;> simp [stateActive, h]

theorem idIndex_cons (next : Peer) (rest : List Peer) (id : String) :
    idIndex (next :: rest) id = if next.Id = id then 0 else idIndex rest id + 1 := by
  by_cases h : next.Id = id
  · simp [idIndex, h]
  · simp [idIndex, List.indexOf_cons, h]

/-- Ticks of a `Standby` engine below the threshold only count. -/
theorem ticks_standby_wait {σ : Type} (T : Transport σ) (n : Nat) (e : Engine σ)
    (h : e.g.local.State = Standby) (hc : e.activeDownCount + n ≤ 3) :
    ticks T n e = { e with activeDownCount := e.activeDownCount + n } := by
  induction n generalizing e with
  | zero => simp [ticks]
  | succ n ih =>
    simp only [ticks]
    rw [onTick_standby_wait T e h (by omega)]
    refine (ih { e with activeDownCount := e.activeDownCount + 1 } h
      (by show e.activeDownCount + 1 + n ≤ 3; omega)).trans ?_
    have harith : e.activeDownCount + 1 + n = e.activeDownCount + (n + 1) := by omega
    simp only [harith]

/-- Succession past the threshold: a `Standby` engine pops one roster entry per
tick while the entries are not its own, and claims `Active` on the tick that
meets its own entry or an empty roster. -/
theorem ticks_standby_succession {σ : Type} (T : Transport σ) (r : List Peer) :
    ∀ e : Engine σ, e.g.local.State = Standby → e.activeDownCount ≥ 3 → e.g.standby = r →
      (∀ j, j ≤ idIndex r e.g.local.Id →
        ticks T j e = { e with g := { e.g with standby := r.drop j },
                               activeDownCount := e.activeDownCount + j }) ∧
      ticks T (idIndex r e.g.local.Id + 1) e
        = stateActive { e with
            g := { e.g with standby := r.drop (min (idIndex r e.g.local.Id + 1) r.length) },
            activeDownCount := e.activeDownCount + (idIndex r e.g.local.Id + 1) } := by
  induction r with
  | nil =>
    intro e h hc hr
    constructor
    · intro j hj
      have hj0 : j = 0 := by simpa [idIndex] using hj
      subst hj0
      obtain ⟨g, c, net, tr⟩ := e
      obtain ⟨gid, lo, ac, sb, ms, ca, cs⟩ := g
      simp only at hr
      subst hr
      simp [ticks]
    · have hk : idIndex [] e.g.local.Id = 0 := by simp [idIndex]
      rw [hk]
      simp only [ticks]
      rw [onTick_standby_empty T e h hc hr]
      obtain ⟨g, c, net, tr⟩ := e
      obtain ⟨gid, lo, ac, sb, ms, ca, cs⟩ := g
      simp only at hr
      subst hr
      simp
  | cons next rest ih =>
    intro e h hc hr
    by_cases hn : next.Id = e.g.local.Id
    · have hk : idIndex (next :: rest) e.g.local.Id = 0 := by simp [idIndex_cons, hn]
      rw [hk]
      constructor
      · intro j hj
        have hj0 : j = 0 := by omega
        subst hj0
        obtain ⟨g, c, net, tr⟩ := e
        obtain ⟨gid, lo, ac, sb, ms, ca, cs⟩ := g
        simp only at hr
        subst hr
        simp [ticks]
      · simp only [ticks]
        rw [onTick_standby_turn T e next rest h hc hr hn]
        simp
    · have hk : idIndex (next :: rest) e.g.local.Id = idIndex rest e.g.local.Id + 1 := by
        simp [idIndex_cons, hn]
      rw [hk]
      have hstep := onTick_standby_pop T e next rest h hc hr hn
      have hih := ih { e with g := { e.g with standby := rest },
                              activeDownCount := e.activeDownCount + 1 }
        h (by show e.activeDownCount + 1 ≥ 3; omega) rfl
      obtain ⟨hih1, hih2⟩ := hih
      constructor
      · intro j hj
        cases j with
        | zero =>
          obtain ⟨g, c, net, tr⟩ := e
          obtain ⟨gid, lo, ac, sb, ms, ca, cs⟩ := g
          simp only at hr
          subst hr
          simp [ticks]
        | succ j =>
          simp only [ticks]
          rw [hstep]
          refine (hih1 j (by simpa using hj)).trans ?_
          have harith : e.activeDownCount + 1 + j = e.activeDownCount + (j + 1) := by omega
          simp only [List.drop_succ_cons, harith]
      · simp only [ticks]
        rw [hstep]
        refine hih2.trans ?_
        have hmin : min (idIndex rest e.g.local.Id + 1 + 1) (next :: rest).length
            = min (idIndex rest e.g.local.Id + 1) rest.length + 1 := by
          simp only [List.length_cons]; omega
        have harith : e.activeDownCount + 1 + (idIndex rest e.g.local.Id + 1)
            = e.activeDownCount + (idIndex rest e.g.local.Id + 1 + 1) := by omega
        simp only [hmin, List.drop_succ_cons, harith]

/-- C9: a `Standby` engine with missed-heartbeat counter 0, roster `r` and `k` the
index of its own first entry in `r` (`k = len(r)` if there is none) is still
`Standby`, with no become-active call, after each of the first `k+3` consecutive
ticks, and from tick `k+4` on it is `Active` (`active = local`), its roster is
`r` without its first `min(k+1, len(r))` entries, and the become-active callback
has been called exactly once. -/
theorem C9_takeover_threshold {σ : Type} (T : Transport σ) (e : Engine σ)
    (hst : e.g.local.State = Standby) (hc : e.activeDownCount = 0)
    (hcb : e.g.becomeActive = true) :
    (∀ n, n ≤ idIndex e.g.standby e.g.local.Id + 3 →
      (ticks T n e).g.local.State = Standby ∧
      activeCount (ticks T n e).trace = activeCount e.trace) ∧
    (∀ n, idIndex e.g.standby e.g.local.Id + 4 ≤ n →
      (ticks T n e).g.local.State = Active ∧
      (ticks T n e).g.active = (ticks T n e).g.local ∧
      (ticks T n e).g.standby = e.g.standby.drop
        (min (idIndex e.g.standby e.g.local.Id + 1) e.g.standby.length) ∧
      activeCount (ticks T n e).trace = activeCount e.trace + 1) := by
  have h3 : ticks T 3 e = { e with activeDownCount := 3 } := by
    rw [ticks_standby_wait T 3 e hst (by omega), hc]
  obtain ⟨hs1, hs2⟩ := ticks_standby_succession T e.g.standby { e with activeDownCount := 3 }
    hst (Nat.le_refl 3) rfl
  constructor
  · intro n hn
    by_cases hle : n ≤ 3
    · rw [ticks_standby_wait T n e hst (by omega)]
      exact ⟨hst, rfl⟩
    · obtain ⟨j, rfl⟩ : ∃ j, n = 3 + j := ⟨n - 3, by omega⟩
      rw [ticks_add, h3, hs1 j (by show j ≤ idIndex e.g.standby e.g.local.Id; omega)]
      exact ⟨hst, rfl⟩
  · intro n hn
    obtain ⟨m, rfl⟩ : ∃ m, n = 3 + ((idIndex e.g.standby e.g.local.Id + 1) + m) :=
      ⟨n - (idIndex e.g.standby e.g.local.Id + 4), by omega⟩
    rw [ticks_add, h3, ticks_add]
    rw [show ticks T (idIndex e.g.standby e.g.local.Id + 1) { e with activeDownCount := 3 } = _
      from hs2]
    obtain ⟨k1, -, k3, -⟩ := ticks_active T m _ (stateActive_state _)
    rw [k1, k3]
    simp [stateActive, hcb, activeCount]

theorem C9_takeover_threshold_witness :
    (∀ n, n ≤ idIndex [⟨"node2", 100, Unknown⟩, ⟨"node1", 100, Unknown⟩] "node1" + 3 →
      (ticks mockTransport n (⟨⟨"group1", ⟨"node1", 100, Standby⟩, ⟨"node3", 100, Active⟩,
        [⟨"node2", 100, Unknown⟩, ⟨"node1", 100, Unknown⟩], 1000, true, true⟩, 0, [], []⟩ :
          Engine (List (Except Error Advertisement)))).g.local.State = Standby ∧
      activeCount (ticks mockTransport n (⟨⟨"group1", ⟨"node1", 100, Standby⟩,
        ⟨"node3", 100, Active⟩, [⟨"node2", 100, Unknown⟩, ⟨"node1", 100, Unknown⟩], 1000, true,
        true⟩, 0, [], []⟩ : Engine (List (Except Error Advertisement)))).trace
        = activeCount []) ∧
    (ticks mockTransport 5 (⟨⟨"group1", ⟨"node1", 100, Standby⟩, ⟨"node3", 100, Active⟩,
        [⟨"node2", 100, Unknown⟩, ⟨"node1", 100, Unknown⟩], 1000, true, true⟩, 0, [], []⟩ :
          Engine (List (Except Error Advertisement)))).g.local.State = Active :=
  have h := C9_takeover_threshold mockTransport
    (⟨⟨"group1", ⟨"node1", 100, Standby⟩, ⟨"node3", 100, Active⟩,
      [⟨"node2", 100, Unknown⟩, ⟨"node1", 100, Unknown⟩], 1000, true, true⟩, 0, [], []⟩ :
        Engine (List (Except Error Advertisement))) rfl rfl rfl
  ⟨h.1, (h.2 5 (by decide)).1⟩

/-- C10: an inbound advertisement reaching an engine in `Init`.  A sender of
strictly greater priority becomes `active`, the engine goes `Standby`, the roster
is untouched and the become-standby callback is called once (become-active not
at all); otherwise the sender is `Add`ed to the roster, the engine goes `Active`
with `active = local`, and the become-active callback is called once
(become-standby not at all). -/
theorem C10_inbound_while_init {σ : Type} (ad : Advertisement) (e : Engine σ)
    (hinit : e.g.local.State = Init)
    (hcbA : e.g.becomeActive = true) (hcbS : e.g.becomeStandby = true) :
    (ad.Local.Priority > e.g.local.Priority →
      (onAdvertisement ad e).g.active = ad.Local ∧
      (onAdvertisement ad e).g.local.State = Standby ∧
      (onAdvertisement ad e).g.standby = e.g.standby ∧
      standbyCount (onAdvertisement ad e).trace = standbyCount e.trace + 1 ∧
      activeCount (onAdvertisement ad e).trace = activeCount e.trace) ∧
    (¬ ad.Local.Priority > e.g.local.Priority →
      (onAdvertisement ad e).g.standby = PeerList.Add e.g.standby ad.Local ∧
      (onAdvertisement ad e).g.local.State = Active ∧
      (onAdvertisement ad e).g.active = (onAdvertisement ad e).g.local ∧
      activeCount (onAdvertisement ad e).trace = activeCount e.trace + 1 ∧
      standbyCount (onAdvertisement ad e).trace = standbyCount e.trace) := by
  constructor
  · intro h
    rw [onAdvertisement_init_higher ad e hinit h]
    simp [respond, stateStandby, hcbS, standbyCount, activeCount]
  · intro h
    rw [onAdvertisement_init_other ad e hinit h]
    simp [respond, stateActive, hcbA, standbyCount, activeCount]

theorem C10_inbound_while_init_witness :
    (onAdvertisement ⟨"group1", ⟨"node2", 100, Init⟩, Peer.zero, [], 1000⟩
      (enterInit (start (New "group1" "node1" 100 1000 true true ["node2"]) ()))).g.standby
        = PeerList.Add [⟨"node2", DefaultPriority, Unknown⟩] ⟨"node2", 100, Init⟩ ∧
    (onAdvertisement ⟨"group1", ⟨"node2", 100, Init⟩, Peer.zero, [], 1000⟩
      (enterInit (start (New "group1" "node1" 100 1000 true true ["node2"]) ()))).g.local.State
        = Active :=
  have h := (C10_inbound_while_init ⟨"group1", ⟨"node2", 100, Init⟩, Peer.zero, [], 1000⟩
    (enterInit (start (New "group1" "node1" 100 1000 true true ["node2"]) ()))
    rfl rfl rfl).2 (by decide)
  ⟨h.1, h.2.1⟩

/-- C11: an inbound advertisement from a sender reporting `Active`, reaching a
`Standby` engine: the engine takes over the sender's `active` and `standby`
fields as they are, resets the missed-heartbeat counter to 0, stays `Standby`
(its `local` is untouched) and calls neither callback. -/
theorem C11_standby_heartbeat {σ : Type} (ad : Advertisement) (e : Engine σ)
    (hst : e.g.local.State = Standby) (hact : ad.Local.State = Active) :
    (onAdvertisement ad e).g.active = ad.Active ∧
    (onAdvertisement ad e).g.standby = ad.Standby ∧
    (onAdvertisement ad e).activeDownCount = 0 ∧
    (onAdvertisement ad e).g.local = e.g.local ∧
    (onAdvertisement ad e).g.local.State = Standby ∧
    activeCount (onAdvertisement ad e).trace = activeCount e.trace ∧
    standbyCount (onAdvertisement ad e).trace = standbyCount e.trace := by
  rw [onAdvertisement_standby_heartbeat ad e hst hact]
  simp [respond, hst, activeCount, standbyCount]

theorem C11_standby_heartbeat_witness :
    (onAdvertisement ⟨"group1", ⟨"node2", 100, Active⟩, ⟨"", 0, ""⟩,
        [⟨"node1", 100, Standby⟩], 1000⟩
      (⟨⟨"group1", ⟨"node1", 100, Standby⟩, ⟨"node2", 100, Active⟩, [], 1000, true, true⟩,
        2, (), []⟩ : Engine Unit)).g.active = ⟨"", 0, ""⟩ ∧
    (onAdvertisement ⟨"group1", ⟨"node2", 100, Active⟩, ⟨"", 0, ""⟩,
        [⟨"node1", 100, Standby⟩], 1000⟩
      (⟨⟨"group1", ⟨"node1", 100, Standby⟩, ⟨"node2", 100, Active⟩, [], 1000, true, true⟩,
        2, (), []⟩ : Engine Unit)).activeDownCount = 0 :=
  have h := C11_standby_heartbeat ⟨"group1", ⟨"node2", 100, Active⟩, ⟨"", 0, ""⟩,
      [⟨"node1", 100, Standby⟩], 1000⟩
    (⟨⟨"group1", ⟨"node1", 100, Standby⟩, ⟨"node2", 100, Active⟩, [], 1000, true, true⟩,
      2, (), []⟩ : Engine Unit) rfl rfl
  ⟨h.1, h.2.2.1⟩

/-- C12: an inbound advertisement from a sender not reporting `Active`, reaching
a `Standby` engine, changes nothing: the group (`local`, `active`, roster) and
the missed-heartbeat counter are as before, no callback is called, and the one
effect is the reply, which is the engine's view from before the message. -/
theorem C12_standby_new_peer {σ : Type} (ad : Advertisement) (e : Engine σ)
    (hst : e.g.local.State = Standby) (hnew : ad.Local.State ≠ Active) :
    (onAdvertisement ad e).g = e.g ∧
    (onAdvertisement ad e).activeDownCount = e.activeDownCount ∧
    (onAdvertisement ad e).trace = e.trace ++ [Effect.respond ad e.g.advertisement] ∧
    activeCount (onAdvertisement ad e).trace = activeCount e.trace ∧
    standbyCount (onAdvertisement ad e).trace = standbyCount e.trace := by
  rw [onAdvertisement_standby_new ad e hst hnew]
  simp [respond, activeCount, standbyCount]

theorem C12_standby_new_peer_witness :
    (onAdvertisement ⟨"group1", ⟨"node3", 200, Init⟩, Peer.zero, [], 1000⟩
      (⟨⟨"group1", ⟨"node1", 100, Standby⟩, ⟨"node2", 100, Active⟩, [], 1000, true, true⟩,
        2, (), []⟩ : Engine Unit)).g
      = ⟨"group1", ⟨"node1", 100, Standby⟩, ⟨"node2", 100, Active⟩, [], 1000, true, true⟩ ∧
    (onAdvertisement ⟨"group1", ⟨"node3", 200, Init⟩, Peer.zero, [], 1000⟩
      (⟨⟨"group1", ⟨"node1", 100, Standby⟩, ⟨"node2", 100, Active⟩, [], 1000, true, true⟩,
        2, (), []⟩ : Engine Unit)).activeDownCount = 2 :=
  have h := C12_standby_new_peer ⟨"group1", ⟨"node3", 200, Init⟩, Peer.zero, [], 1000⟩
    (⟨⟨"group1", ⟨"node1", 100, Standby⟩, ⟨"node2", 100, Active⟩, [], 1000, true, true⟩,
      2, (), []⟩ : Engine Unit) rfl (by decide)
  ⟨h.1, h.2.1⟩

/-- C13: an inbound advertisement reaching an `Active` engine, whether or not the
sender claims `Active` too: the sender is `Add`ed to the roster, while `local`,
`active` and the missed-heartbeat counter stay as they are and neither callback
is called. -/
theorem C13_inbound_while_active {σ : Type} (ad : Advertisement) (e : Engine σ)
    (hact : e.g.local.State = Active) :
    (onAdvertisement ad e).g.standby = PeerList.Add e.g.standby ad.Local ∧
    (onAdvertisement ad e).g.local = e.g.local ∧
    (onAdvertisement ad e).g.active = e.g.active ∧
    (onAdvertisement ad e).activeDownCount = e.activeDownCount ∧
    activeCount (onAdvertisement ad e).trace = activeCount e.trace ∧
    standbyCount (onAdvertisement ad e).trace = standbyCount e.trace := by
  rw [onAdvertisement_active ad e hact]
  simp [respond, activeCount, standbyCount]

theorem C13_inbound_while_active_witness :
    (onAdvertisement ⟨"group1", ⟨"node2", 200, Active⟩, ⟨"node2", 200, Active⟩, [], 1000⟩
      (⟨⟨"group1", ⟨"node1", 100, Active⟩, ⟨"node1", 100, Active⟩,
        [⟨"node2", 100, Unknown⟩], 1000, true, true⟩, 0, (), []⟩ : Engine Unit)).g.standby
      = PeerList.Add [⟨"node2", 100, Unknown⟩] ⟨"node2", 200, Active⟩ ∧
    (onAdvertisement ⟨"group1", ⟨"node2", 200, Active⟩, ⟨"node2", 200, Active⟩, [], 1000⟩
      (⟨⟨"group1", ⟨"node1", 100, Active⟩, ⟨"node1", 100, Active⟩,
        [⟨"node2", 100, Unknown⟩], 1000, true, true⟩, 0, (), []⟩ : Engine Unit)).g.local
      = ⟨"node1", 100, Active⟩ :=
  have h := C13_inbound_while_active
    ⟨"group1", ⟨"node2", 200, Active⟩, ⟨"node2", 200, Active⟩, [], 1000⟩
    (⟨⟨"group1", ⟨"node1", 100, Active⟩, ⟨"node1", 100, Active⟩,
      [⟨"node2", 100, Unknown⟩], 1000, true, true⟩, 0, (), []⟩ : Engine Unit) rfl
  ⟨h.1, h.2.1⟩

/-! ### Heartbeat fan-out and self-promotion -/

theorem advertiseCount_append (t1 t2 : List Effect) :
    advertiseCount (t1 ++ t2) = advertiseCount t1 + advertiseCount t2 := by
  simp [advertiseCount, List.filter_append]

theorem advertiseCount_calls (l : List Peer) (ad : Advertisement) :
    advertiseCount (l.map (fun p => Effect.advertise p ad)) = l.length := by
  induction l with
  | nil => simp [advertiseCount]
  | cons p rest ih =>
    simp only [advertiseCount] at ih
    simp [advertiseCount, ih]

theorem activeCount_calls (l : List Peer) (ad : Advertisement) :
    activeCount (l.map (fun p => Effect.advertise p ad)) = 0 ∧
    standbyCount (l.map (fun p => Effect.advertise p ad)) = 0 := by
  induction l with
  | nil => simp [activeCount, standbyCount]
  | cons p rest ih =>
    simp only [activeCount, standbyCount] at ih
    simp [activeCount, standbyCount, ih.1, ih.2]

/-- The heartbeat loop calls `Advertise` once per roster peer, in order, always
with the same view, and leaves the group and the counter alone. -/
theorem fanOut_trace {σ : Type} (T : Transport σ) (l : List Peer) (e : Engine σ) :
    (fanOut T l e).trace = e.trace ++ l.map (fun p => Effect.advertise p e.g.advertisement) ∧
    (fanOut T l e).g = e.g ∧ (fanOut T l e).activeDownCount = e.activeDownCount := by
  induction l generalizing e with
  | nil => simp [fanOut]
  | cons p rest ih =>
    obtain ⟨h1, h2, h3⟩ := ih (callAdvertise T p e).2
    simp only [fanOut]
    refine ⟨h1.trans ?_, h2.trans rfl, h3.trans rfl⟩
    simp [callAdvertise, afterCall]

/-- C14: one heartbeat tick of an `Active` engine, whatever the transport answers
(any of the calls may fail): exactly `len(standby)` calls of `Advertise`, one to
each roster peer in roster order and none repeated, each carrying the engine's
current view; the group (`local`, `active`, roster) and the counter are
unchanged. -/
theorem C14_heartbeat_fan_out {σ : Type} (T : Transport σ) (e : Engine σ)
    (hact : e.g.local.State = Active) :
    (onTick T e).trace
      = e.trace ++ e.g.standby.map (fun p => Effect.advertise p e.g.advertisement) ∧
    advertiseCount (onTick T e).trace = advertiseCount e.trace + e.g.standby.length ∧
    (onTick T e).g = e.g ∧
    (onTick T e).activeDownCount = e.activeDownCount := by
  have ht : onTick T e = fanOut T e.g.standby e := by
    unfold onTick
    rw [if_pos hact]
  obtain ⟨h1, h2, h3⟩ := fanOut_trace T e.g.standby e
  rw [ht]
  refine ⟨h1, ?_, h2, h3⟩
  rw [h1, advertiseCount_append, advertiseCount_calls]

theorem C14_heartbeat_fan_out_witness :
    (onTick mockTransport (⟨⟨"group1", ⟨"node1", 100, Active⟩, ⟨"node1", 100, Active⟩,
        [⟨"node2", 100, Unknown⟩, ⟨"node3", 100, Unknown⟩], 1000, true, true⟩, 0,
        [Except.error (Error.transport "timeout")], []⟩ :
          Engine (List (Except Error Advertisement)))).trace
      = [Effect.advertise ⟨"node2", 100, Unknown⟩
          ⟨"group1", ⟨"node1", 100, Active⟩, ⟨"node1", 100, Active⟩,
            [⟨"node2", 100, Unknown⟩, ⟨"node3", 100, Unknown⟩], 1000⟩,
         Effect.advertise ⟨"node3", 100, Unknown⟩
          ⟨"group1", ⟨"node1", 100, Active⟩, ⟨"node1", 100, Active⟩,
            [⟨"node2", 100, Unknown⟩, ⟨"node3", 100, Unknown⟩], 1000⟩] :=
  (C14_heartbeat_fan_out mockTransport (⟨⟨"group1", ⟨"node1", 100, Active⟩,
      ⟨"node1", 100, Active⟩, [⟨"node2", 100, Unknown⟩, ⟨"node3", 100, Unknown⟩], 1000, true,
      true⟩, 0, [Except.error (Error.transport "timeout")], []⟩ :
        Engine (List (Except Error Advertisement))) rfl).1

/-- Below the threshold a tick of an engine still in `Init` only counts. -/
theorem onTick_init_wait {σ : Type} (T : Transport σ) (e : Engine σ)
    (h : e.g.local.State = Init) (hc : e.activeDownCount + 1 ≤ 3) :
    onTick T e = { e with activeDownCount := e.activeDownCount + 1 } := by
  have h1 : ¬ e.g.local.State = Active := by rw [h]; decide
  have h2 : ¬ (e.activeDownCount + 1 > 3) := by omega
  unfold onTick
  rw [if_neg h1]
  simp only [if_neg h2]

/-- Past the threshold a tick of an engine still in `Init` claims `Active`. -/
theorem onTick_init_promote {σ : Type} (T : Transport σ) (e : Engine σ)
    (h : e.g.local.State = Init) (hc : e.activeDownCount ≥ 3) :
    onTick T e = stateActive { e with activeDownCount := e.activeDownCount + 1 } := by
  have h1 : ¬ e.g.local.State = Active := by rw [h]; decide
  have h2 : e.activeDownCount + 1 > 3 := by omega
  unfold onTick
  rw [if_neg h1]
  simp only [if_pos h2, if_pos h]

theorem ticks_init_wait {σ : Type} (T : Transport σ) (n : Nat) (e : Engine σ)
    (h : e.g.local.State = Init) (hc : e.activeDownCount + n ≤ 3) :
    ticks T n e = { e with activeDownCount := e.activeDownCount + n } := by
  induction n generalizing e with
  | zero => simp [ticks]
  | succ n ih =>
    simp only [ticks]
    rw [onTick_init_wait T e h (by omega)]
    refine (ih { e with activeDownCount := e.activeDownCount + 1 } h
      (by show e.activeDownCount + 1 + n ≤ 3; omega)).trans ?_
    have harith : e.activeDownCount + 1 + n = e.activeDownCount + (n + 1) := by omega
    simp only [harith]

/-- C15: an engine in `Init` with missed-heartbeat counter 0, whatever its roster,
is still `Init` (group and trace untouched) after each of the first 3 consecutive
ticks and `Active` after the 4th, with `active = local`, the roster as it was, no
`Advertise` call made by these four ticks and the become-active callback called
exactly once. -/
theorem C15_init_self_promotion {σ : Type} (T : Transport σ) (e : Engine σ)
    (hinit : e.g.local.State = Init) (hc : e.activeDownCount = 0)
    (hcb : e.g.becomeActive = true) :
    (∀ n, n ≤ 3 → (ticks T n e).g.local.State = Init ∧ (ticks T n e).g = e.g ∧
      (ticks T n e).trace = e.trace) ∧
    (ticks T 4 e).g.local.State = Active ∧
    (ticks T 4 e).g.active = (ticks T 4 e).g.local ∧
    (ticks T 4 e).g.standby = e.g.standby ∧
    (ticks T 4 e).trace = e.trace ++ [Effect.becomeActive] ∧
    advertiseCount (ticks T 4 e).trace = advertiseCount e.trace ∧
    activeCount (ticks T 4 e).trace = activeCount e.trace + 1 := by
  have h3 : ticks T 3 e = { e with activeDownCount := 3 } := by
    rw [ticks_init_wait T 3 e hinit (by omega), hc]
  have h4 : ticks T 4 e = stateActive { e with activeDownCount := 3 + 1 } := by
    rw [show (4 : Nat) = 3 + 1 from rfl, ticks_add, h3]
    simp only [ticks]
    exact onTick_init_promote T { e with activeDownCount := 3 } hinit (Nat.le_refl 3)
  constructor
  · intro n hn
    rw [ticks_init_wait T n e hinit (by omega)]
    exact ⟨hinit, rfl, rfl⟩
  · rw [h4]
    simp [stateActive, hcb, advertiseCount_append, advertiseCount, activeCount]

theorem C15_init_self_promotion_witness :
    (ticks mockTransport 4
      (enterInit (start (New "group1" "node1" 100 1000 true true ["node2"])
        []))).g.local.State = Active ∧
    (ticks mockTransport 4
      (enterInit (start (New "group1" "node1" 100 1000 true true ["node2"])
        []))).trace = [] ++ [Effect.becomeActive] :=
  have h := C15_init_self_promotion mockTransport
    (enterInit (start (New "group1" "node1" 100 1000 true true ["node2"]) []))
    rfl rfl rfl
  ⟨h.2.1, h.2.2.2.2.1⟩

/-! ### Discovery: failure, recursion, outcome -/

/-- When every call of the round fails (the peer is unreachable or answers
`Init`), the search loop of `StateInit` calls each peer once, in order, and
leaves the group as it was. -/
theorem initSearch_all_fail {σ : Type} (T : Transport σ) (fuel : Nat) (l : List Peer) :
    ∀ e : Engine σ, allFail T e.g.advertisement l e.net = true →
      ∃ e', initSearch T (fuel + 1) l false e = some e' ∧ e'.g = e.g ∧
        e'.activeDownCount = e.activeDownCount ∧
        e'.trace = e.trace ++ l.map (fun p => Effect.advertise p e.g.advertisement) := by
  induction l with
  | nil =>
    intro e _
    exact ⟨e, by simp [initSearch], rfl, rfl, by simp⟩
  | cons peer rest ih =>
    intro e hfail
    simp only [allFail, Bool.and_eq_true] at hfail
    obtain ⟨hcase, hrest⟩ := hfail
    have hfind : ∃ err, findActive T (fuel + 1) peer e
        = some (Except.error err,
            afterCall e peer (T.Advertise e.net peer e.g.advertisement).2) := by
      rcases hres : (T.Advertise e.net peer e.g.advertisement).1 with err | adv
      · exact ⟨err, findActive_error T fuel peer e err _ (Prod.ext hres rfl)⟩
      · rw [hres] at hcase
        have hst : adv.Local.State = Init := of_decide_eq_true hcase
        refine ⟨Error.ErrPeerIsInit, findActive_init T fuel peer e adv _ (Prod.ext hres rfl)
          ?_ ?_⟩
        · rw [hst]; decide
        · rw [hst]; decide
    obtain ⟨err, hfind⟩ := hfind
    obtain ⟨e', h1, h2, h3, h5⟩ :=
      ih (afterCall e peer (T.Advertise e.net peer e.g.advertisement).2) hrest
    refine ⟨e', ?_, h2, h3, ?_⟩
    · rw [initSearch_error T _ peer rest false e _ err hfind]
      exact h1
    · rw [h5]
      simp [afterCall]

/-- C16: with a non-empty roster, when each `Advertise` call that discovery makes
(one per roster peer, in roster order) either returns a transport error or
returns a reply whose local state is `Init`, `StateInit` returns after exactly
these calls with `local.State = Init`, `active` and the roster unchanged and
neither callback called. -/
theorem C16_failed_discovery {σ : Type} (T : Transport σ) (fuel : Nat) (g : Group) (net : σ)
    (hne : g.standby ≠ [])
    (hfail : allFail T (initView g) g.standby net = true) :
    ∃ e', StateInit T (fuel + 1) (start g net) = some e' ∧
      e'.trace = g.standby.map (fun p => Effect.advertise p (initView g)) ∧
      advertiseCount e'.trace = g.standby.length ∧
      e'.g.local.State = Init ∧
      e'.g.active = g.active ∧ e'.g.standby = g.standby ∧
      activeCount e'.trace = 0 ∧ standbyCount e'.trace = 0 := by
  obtain ⟨e', h1, h2, -, h5⟩ :=
    initSearch_all_fail T fuel g.standby (enterInit (start g net)) hfail
  have htr : e'.trace = g.standby.map (fun p => Effect.advertise p (initView g)) := by
    rw [h5]
    simp [enterInit, start, initView]
  refine ⟨e', ?_, htr, ?_, ?_, ?_, ?_, ?_, ?_⟩
  · rw [StateInit_nonempty T _ _ (by simpa [start] using hne)]
    exact h1
  · rw [htr, advertiseCount_calls]
  · rw [h2]; rfl
  · rw [h2]; rfl
  · rw [h2]; rfl
  · rw [htr]; exact (activeCount_calls _ _).1
  · rw [htr]; exact (activeCount_calls _ _).2

theorem C16_failed_discovery_witness :
    ∃ e', StateInit mockTransport (0 + 1)
        (start (New "group1" "node1" 100 1000 true true ["node2", "node3"])
          [Except.error (Error.transport "timeout"),
           Except.ok ⟨"group1", ⟨"node3", 100, Init⟩, Peer.zero, [], 1000⟩,
           Except.ok ⟨"group1", ⟨"node4", 100, Active⟩, Peer.zero, [], 1000⟩]) = some e' ∧
      e'.trace = (New "group1" "node1" 100 1000 true true ["node2", "node3"]).standby.map
        (fun p => Effect.advertise p
          (initView (New "group1" "node1" 100 1000 true true ["node2", "node3"]))) ∧
      advertiseCount e'.trace
        = (New "group1" "node1" 100 1000 true true ["node2", "node3"]).standby.length ∧
      e'.g.local.State = Init ∧
      e'.g.active = (New "group1" "node1" 100 1000 true true ["node2", "node3"]).active ∧
      e'.g.standby = (New "group1" "node1" 100 1000 true true ["node2", "node3"]).standby ∧
      activeCount e'.trace = 0 ∧ standbyCount e'.trace = 0 :=
  C16_failed_discovery mockTransport 0
    (New "group1" "node1" 100 1000 true true ["node2", "node3"])
    [Except.error (Error.transport "timeout"),
     Except.ok ⟨"group1", ⟨"node3", 100, Init⟩, Peer.zero, [], 1000⟩,
     Except.ok ⟨"group1", ⟨"node4", 100, Active⟩, Peer.zero, [], 1000⟩]
    (by decide) (by decide)

theorem nominate_ne (peer : Peer) (id : String) (ha : id ≠ "a") (hb : id ≠ "b") :
    (nominate peer).Id ≠ id := by
  unfold nominate
  by_cases h : peer.Id = "a"
  · simp only [if_pos h]; exact fun hc => hb hc.symm
  · simp only [if_neg h]; exact fun hc => ha hc.symm

/-- In the ring every call leads to the next one: no number of nested calls
lets `findActive` return. -/
theorem findActive_ring (fuel : Nat) :
    ∀ (peer : Peer) (e : Engine Unit), e.g.local.Id ≠ "a" → e.g.local.Id ≠ "b" →
      findActive ringTransport fuel peer e = none := by
  induction fuel with
  | zero => intro peer e _ _; rfl
  | succ fuel ih =>
    intro peer e ha hb
    rw [findActive_chain ringTransport fuel peer e _ e.net rfl rfl
      (nominate_ne peer _ ha hb)]
    exact ih _ (afterCall e peer e.net) ha hb

/-- In the ring cut after `n` hops `findActive` returns, after `n + 1` calls. -/
theorem findActive_chain_returns (n : Nat) :
    ∀ (peer : Peer) (e : Engine Nat), e.net = n → e.g.local.Id ≠ "a" → e.g.local.Id ≠ "b" →
      ∀ fuel, ∃ adv e', findActive chainTransport (n + 1 + fuel) peer e
          = some (Except.ok adv, e') ∧
        advertiseCount e'.trace = advertiseCount e.trace + (n + 1) := by
  induction n with
  | zero =>
    intro peer e hnet ha hb fuel
    have hT : chainTransport.Advertise e.net peer e.g.advertisement
        = (Except.ok ⟨e.g.advertisement.GroupId, ⟨peer.Id, 0, Active⟩, ⟨peer.Id, 0, Active⟩, [],
            e.g.advertisement.IntervalMs⟩, 0) := by
      rw [hnet]; rfl
    refine ⟨⟨e.g.advertisement.GroupId, ⟨peer.Id, 0, Active⟩, ⟨peer.Id, 0, Active⟩, [],
      e.g.advertisement.IntervalMs⟩, afterCall e peer 0, ?_, ?_⟩
    · rw [show 0 + 1 + fuel = fuel + 1 by omega]
      exact findActive_active chainTransport fuel peer e _ 0 hT rfl
    · simp [afterCall, advertiseCount_append, advertiseCount]
  | succ n ih =>
    intro peer e hnet ha hb fuel
    have hT : chainTransport.Advertise e.net peer e.g.advertisement
        = (Except.ok ⟨e.g.advertisement.GroupId, ⟨peer.Id, 0, Standby⟩, nominate peer, [],
            e.g.advertisement.IntervalMs⟩, n) := by
      rw [hnet]; rfl
    obtain ⟨adv, e', h1, h2⟩ := ih (nominate peer) (afterCall e peer n) rfl ha hb fuel
    refine ⟨adv, e', ?_, ?_⟩
    · rw [show n + 1 + 1 + fuel = (n + 1 + fuel) + 1 by omega]
      rw [findActive_chain chainTransport (n + 1 + fuel) peer e _ n hT rfl
        (nominate_ne peer _ ha hb)]
      exact h1
    · rw [h2]
      simp [afterCall, advertiseCount_append, advertiseCount]
      omega

/-- In the ring cut after `n` hops no fewer than `n + 1` nested calls will do. -/
theorem findActive_chain_needs (fuel : Nat) :
    ∀ (n : Nat) (peer : Peer) (e : Engine Nat), e.net = n → fuel ≤ n →
      e.g.local.Id ≠ "a" → e.g.local.Id ≠ "b" →
      findActive chainTransport fuel peer e = none := by
  induction fuel with
  | zero => intro n peer e _ _ _ _; rfl
  | succ fuel ih =>
    intro n peer e hnet hle ha hb
    obtain ⟨k, rfl⟩ : ∃ k, n = k + 1 := ⟨n - 1, by omega⟩
    have hT : chainTransport.Advertise e.net peer e.g.advertisement
        = (Except.ok ⟨e.g.advertisement.GroupId, ⟨peer.Id, 0, Standby⟩, nominate peer, [],
            e.g.advertisement.IntervalMs⟩, k) := by
      rw [hnet]; rfl
    rw [findActive_chain chainTransport fuel peer e _ k hT rfl (nominate_ne peer _ ha hb)]
    exact ih k (nominate peer) (afterCall e peer k) rfl (by omega) ha hb

/-- C17: `findActive` has no bound on its recursion.  For every `n` there is a
transport (the ring of `a` and `b` naming each other `Standby`, cut after `n`
hops) under which one `findActive` call returns only after `n + 1 > n` calls of
`Advertise`, and not within `n` nested calls; under the uncut ring it does not
return within any number of nested calls. -/
theorem C17_unbounded_recursion (g : Group)
    (ha : g.local.Id ≠ "a") (hb : g.local.Id ≠ "b") :
    (∀ n fuel, ∃ adv e',
      findActive chainTransport (n + 1 + fuel) ⟨"a", 0, Unknown⟩ (start g n)
        = some (Except.ok adv, e') ∧
      advertiseCount e'.trace = n + 1 ∧ n < advertiseCount e'.trace) ∧
    (∀ n fuel, fuel ≤ n →
      findActive chainTransport fuel ⟨"a", 0, Unknown⟩ (start g n) = none) ∧
    (∀ fuel, findActive ringTransport fuel ⟨"a", 0, Unknown⟩ (start g ()) = none) := by
  refine ⟨?_, ?_, ?_⟩
  · intro n fuel
    obtain ⟨adv, e', h1, h2⟩ :=
      findActive_chain_returns n ⟨"a", 0, Unknown⟩ (start g n) rfl ha hb fuel
    have h3 : advertiseCount e'.trace = n + 1 := by
      rw [h2]; simp [start, advertiseCount]
    exact ⟨adv, e', h1, h3, by omega⟩
  · intro n fuel hle
    exact findActive_chain_needs fuel n _ (start g n) rfl hle ha hb
  · intro fuel
    exact findActive_ring fuel _ (start g ()) ha hb

theorem C17_unbounded_recursion_witness :
    (∀ n fuel, ∃ adv e',
      findActive chainTransport (n + 1 + fuel) ⟨"a", 0, Unknown⟩
          (start (New "group1" "node1" 100 1000 true true ["a"]) n)
        = some (Except.ok adv, e') ∧
      advertiseCount e'.trace = n + 1 ∧ n < advertiseCount e'.trace) ∧
    (∀ fuel, findActive ringTransport fuel ⟨"a", 0, Unknown⟩
      (start (New "group1" "node1" 100 1000 true true ["a"]) ()) = none) :=
  have h := C17_unbounded_recursion (New "group1" "node1" 100 1000 true true ["a"])
    (by decide) (by decide)
  ⟨h.1, h.2.2⟩

/-! ### Once active -/

theorem stateActive_active {σ : Type} (e : Engine σ) :
    (stateActive e).g.active = (stateActive e).g.local := by
  by_cases h : e.g.becomeActive = true <;> simp [stateActive, h]

/-- One event on an `Active` engine keeps `local` and `active` and calls no
role callback. -/
theorem step_active {σ : Type} (T : Transport σ) (e : Engine σ) (ev : Event)
    (h : e.g.local.State = Active) :
    (step T e ev).g.local = e.g.local ∧ (step T e ev).g.active = e.g.active ∧
    activeCount (step T e ev).trace = activeCount e.trace ∧
    standbyCount (step T e ev).trace = standbyCount e.trace := by
  cases ev with
  | inbound ad =>
    simp only [step]
    rw [onAdvertisement_active ad e h]
    simp [respond, activeCount, standbyCount]
  | tick =>
    simp only [step]
    have ht : onTick T e = fanOut T e.g.standby e := by
      unfold onTick
      rw [if_pos h]
    obtain ⟨k1, -, k3, k4⟩ := fanOut_keeps T e.g.standby e
    rw [ht, k1]
    exact ⟨rfl, rfl, k3, k4⟩

theorem run_active {σ : Type} (T : Transport σ) (evs : List Event) :
    ∀ e : Engine σ, e.g.local.State = Active →
      (run T evs e).g.local = e.g.local ∧ (run T evs e).g.active = e.g.active ∧
      activeCount (run T evs e).trace = activeCount e.trace ∧
      standbyCount (run T evs e).trace = standbyCount e.trace := by
  induction evs with
  | nil => intro e _; simp [run]
  | cons ev rest ih =>
    intro e h
    obtain ⟨s1, s2, s3, s4⟩ := step_active T e ev h
    obtain ⟨r1, r2, r3, r4⟩ := ih (step T e ev) (by rw [s1]; exact h)
    have hrun : run T (ev :: rest) e = run T rest (step T e ev) := rfl
    rw [hrun]
    exact ⟨r1.trans s1, r2.trans s2, r3.trans s3, r4.trans s4⟩

/-- C18: `Active` is absorbing.  From the state `stateActive` leaves, every
sequence of loop events (inbound advertisements of any sender, heartbeat ticks
under any transport) ends with `local` unchanged, hence `local.State = Active`,
with `active = local`, and with neither callback called in between. -/
theorem C18_active_absorbing {σ : Type} (T : Transport σ) (e0 : Engine σ)
    (evs : List Event) :
    (run T evs (stateActive e0)).g.local.State = Active ∧
    (run T evs (stateActive e0)).g.active = (run T evs (stateActive e0)).g.local ∧
    (run T evs (stateActive e0)).g.local = (stateActive e0).g.local ∧
    activeCount (run T evs (stateActive e0)).trace = activeCount (stateActive e0).trace ∧
    standbyCount (run T evs (stateActive e0)).trace
      = standbyCount (stateActive e0).trace := by
  obtain ⟨r1, r2, r3, r4⟩ := run_active T evs (stateActive e0) (stateActive_state e0)
  refine ⟨by rw [r1]; exact stateActive_state e0, ?_, r1, r3, r4⟩
  rw [r1, r2]
  exact stateActive_active e0

/-! ### Outcome of discovery -/

/-- A `findActive` call only talks to the transport: the group is untouched and
no role callback is called. -/
theorem findActive_keeps {σ : Type} (T : Transport σ) (fuel : Nat) :
    ∀ (peer : Peer) (e : Engine σ) (r : Except Error Advertisement) (e1 : Engine σ),
      findActive T fuel peer e = some (r, e1) →
      e1.g = e.g ∧ activeCount e1.trace = activeCount e.trace ∧
      standbyCount e1.trace = standbyCount e.trace := by
  induction fuel with
  | zero =>
    intro peer e r e1 h
    simp [findActive] at h
  | succ fuel ih =>
    intro peer e r e1 h
    have hafter : ∀ n1, (afterCall e peer n1).g = e.g ∧
        activeCount (afterCall e peer n1).trace = activeCount e.trace ∧
        standbyCount (afterCall e peer n1).trace = standbyCount e.trace := by
      intro n1
      simp [afterCall, activeCount, standbyCount]
    have hT : T.Advertise e.net peer e.g.advertisement
        = ((T.Advertise e.net peer e.g.advertisement).1,
           (T.Advertise e.net peer e.g.advertisement).2) := rfl
    rcases hres : (T.Advertise e.net peer e.g.advertisement).1 with err | adv
    · rw [hres] at hT
      rw [findActive_error T fuel peer e err _ hT] at h
      simp only [Option.some.injEq, Prod.mk.injEq] at h
      rw [← h.2]
      exact hafter _
    · rw [hres] at hT
      by_cases h1 : adv.Local.State = Active
      · rw [findActive_active T fuel peer e adv _ hT h1] at h
        simp only [Option.some.injEq, Prod.mk.injEq] at h
        rw [← h.2]
        exact hafter _
      · by_cases h2 : adv.Local.State = Standby
        · by_cases h3 : adv.Active.Id = e.g.local.Id
          · rw [findActive_nominated T fuel peer e adv _ hT h2 h3] at h
            simp only [Option.some.injEq, Prod.mk.injEq] at h
            rw [← h.2]
            exact hafter _
          · rw [findActive_chain T fuel peer e adv _ hT h2 h3] at h
            obtain ⟨k1, k2, k3⟩ := ih _ _ r e1 h
            obtain ⟨a1, a2, a3⟩ := hafter (T.Advertise e.net peer e.g.advertisement).2
            exact ⟨k1.trans a1, k2.trans a2, k3.trans a3⟩
        · rw [findActive_init T fuel peer e adv _ hT h1 h2] at h
          simp only [Option.some.injEq, Prod.mk.injEq] at h
          rw [← h.2]
          exact hafter _

theorem adopt_facts {σ : Type} (adv : Advertisement) (e : Engine σ) :
    (adopt adv e).g.local.State = Standby ∧ (adopt adv e).g.active = adv.Local ∧
    (adopt adv e).g.standby = adv.Standby ∧
    activeCount (adopt adv e).trace = activeCount e.trace := by
  by_cases h : e.g.becomeStandby = true <;> simp [adopt, stateStandby, h, activeCount]

/-- The search loop of `StateInit`, entered with `claimActive = false`, either
runs through the roster and leaves the group as it was, or stops at the first
peer for which `findActive` returns an advertisement and adopts it. -/
theorem initSearch_outcome {σ : Type} (T : Transport σ) (fuel : Nat) (l : List Peer) :
    ∀ (e e' : Engine σ), initSearch T fuel l false e = some e' →
      (e'.g = e.g ∧ activeCount e'.trace = activeCount e.trace) ∨
      (∃ peer, peer ∈ l ∧ ∃ e0 adv e1, findActive T fuel peer e0 = some (Except.ok adv, e1) ∧
        e' = adopt adv e1 ∧ e1.g = e.g ∧ activeCount e1.trace = activeCount e.trace) := by
  induction l with
  | nil =>
    intro e e' h
    simp only [initSearch, Bool.false_eq_true, if_false, Option.some.injEq] at h
    left
    rw [← h]
    exact ⟨rfl, rfl⟩
  | cons peer rest ih =>
    intro e e' h
    rcases hf : findActive T fuel peer e with _ | ⟨r, e1⟩
    · simp [initSearch, hf] at h
    · obtain ⟨k1, k2, -⟩ := findActive_keeps T fuel peer e r e1 hf
      cases r with
      | error err =>
        rw [initSearch_error T fuel peer rest false e e1 err hf] at h
        rcases ih e1 e' h with ⟨a1, a2⟩ | ⟨p, hp, e0, adv, e2, b1, b2, b3, b4⟩
        · left
          exact ⟨a1.trans k1, a2.trans k2⟩
        · right
          exact ⟨p, List.mem_cons_of_mem _ hp, e0, adv, e2, b1, b2, b3.trans k1, b4.trans k2⟩
      | ok adv =>
        rw [initSearch_ok T fuel peer rest false e e1 adv hf] at h
        simp only [Option.some.injEq] at h
        right
        exact ⟨peer, List.mem_cons_self _ _, e, adv, e1, hf, h.symm, k1, k2⟩

/-- C19: with a non-empty roster, whenever `StateInit` returns it has not made the
engine `Active`: `local.State` is `Standby` or `Init` and the become-active
callback was not called.  It ends `Init` with `active` and the roster untouched,
or it ends `Standby` having adopted, as `active`, the `Local` of the
advertisement `findActive` returned for some roster peer; and the loop stops at
any peer for which `findActive` returns an advertisement, whether or not that
advertisement names the local engine as active. -/
theorem C19_discovery_never_self_elects {σ : Type} (T : Transport σ) (fuel : Nat)
    (e e' : Engine σ)
    (hne : e.g.standby ≠ [])
    (hret : StateInit T fuel e = some e') :
    (e'.g.local.State = Standby ∨ e'.g.local.State = Init) ∧
    e'.g.local.State ≠ Active ∧
    activeCount e'.trace = activeCount e.trace ∧
    ((e'.g.local.State = Init ∧ e'.g.active = e.g.active ∧ e'.g.standby = e.g.standby) ∨
     (∃ peer, peer ∈ e.g.standby ∧ ∃ e0 adv e1,
        findActive T fuel peer e0 = some (Except.ok adv, e1) ∧
        e' = adopt adv e1 ∧ e'.g.local.State = Standby ∧ e'.g.active = adv.Local)) ∧
    (∀ (peer : Peer) (rest : List Peer) (c : Bool) (e0 e1 : Engine σ) (adv : Advertisement),
      findActive T fuel peer e0 = some (Except.ok adv, e1) →
      initSearch T fuel (peer :: rest) c e0 = some (adopt adv e1) ∧
      (adopt adv e1).g.local.State = Standby ∧ (adopt adv e1).g.active = adv.Local) := by
  rw [StateInit_nonempty T fuel e hne] at hret
  have hstop : ∀ (peer : Peer) (rest : List Peer) (c : Bool) (e0 e1 : Engine σ)
      (adv : Advertisement),
      findActive T fuel peer e0 = some (Except.ok adv, e1) →
      initSearch T fuel (peer :: rest) c e0 = some (adopt adv e1) ∧
      (adopt adv e1).g.local.State = Standby ∧ (adopt adv e1).g.active = adv.Local := by
    intro peer rest c e0 e1 adv hf
    exact ⟨initSearch_ok T fuel peer rest c e0 e1 adv hf, (adopt_facts adv e1).1,
      (adopt_facts adv e1).2.1⟩
  have hSA : Standby ≠ Active := by decide
  have hIA : Init ≠ Active := by decide
  rcases initSearch_outcome T fuel e.g.standby (enterInit e) e' hret with
    ⟨a1, a2⟩ | ⟨p, hp, e0, adv, e1, b1, b2, -, b4⟩
  · have hst : e'.g.local.State = Init := by rw [a1]; rfl
    refine ⟨Or.inr hst, by rw [hst]; exact hIA, a2, Or.inl ⟨hst, ?_, ?_⟩, hstop⟩
    · rw [a1]; rfl
    · rw [a1]; rfl
  · obtain ⟨f1, f2, -, f4⟩ := adopt_facts adv e1
    have hst : e'.g.local.State = Standby := by rw [b2]; exact f1
    refine ⟨Or.inl hst, by rw [hst]; exact hSA, ?_,
      Or.inr ⟨p, hp, e0, adv, e1, b1, b2, hst, by rw [b2]; exact f2⟩, hstop⟩
    rw [b2, f4, b4]
    rfl

theorem C19_discovery_never_self_elects_witness :
    ∃ e', StateInit mockTransport 1
        (start (New "group1" "node1" 100 1000 true true ["node2", "node3"])
          [Except.ok ⟨"group1", ⟨"node2", 100, Standby⟩, ⟨"node1", 100, Unknown⟩, [], 1000⟩,
           Except.ok ⟨"group1", ⟨"node3", 100, Init⟩, Peer.zero, [], 1000⟩]) = some e' ∧
      (e'.g.local.State = Standby ∨ e'.g.local.State = Init) ∧
      e'.g.local.State ≠ Active ∧
      activeCount e'.trace = activeCount [] :=
  have hs : (StateInit mockTransport 1
      (start (New "group1" "node1" 100 1000 true true ["node2", "node3"])
        [Except.ok ⟨"group1", ⟨"node2", 100, Standby⟩, ⟨"node1", 100, Unknown⟩, [], 1000⟩,
         Except.ok ⟨"group1", ⟨"node3", 100, Init⟩, Peer.zero, [], 1000⟩])).isSome = true := by
    decide
  have h := C19_discovery_never_self_elects mockTransport 1
    (start (New "group1" "node1" 100 1000 true true ["node2", "node3"])
      [Except.ok ⟨"group1", ⟨"node2", 100, Standby⟩, ⟨"node1", 100, Unknown⟩, [], 1000⟩,
       Except.ok ⟨"group1", ⟨"node3", 100, Init⟩, Peer.zero, [], 1000⟩])
    _ (by decide) (Option.some_get hs).symm
  ⟨_, (Option.some_get hs).symm, h.1, h.2.1, h.2.2.1⟩

/-! ### Insertion of a new id -/

theorem sortedDesc_pairwise {l : PeerList} (h : SortedDesc l) :
    l.Pairwise (fun a b => a.Priority ≥ b.Priority) := by
  haveI : IsTrans Peer (fun a b => a.Priority ≥ b.Priority) :=
    ⟨fun _ _ _ h1 h2 => Nat.le_trans h2 h1⟩
  exact List.chain'_iff_pairwise.1 h

/-- In a roster sorted by descending priority the new entry comes to rest right
behind the entries of at least its priority and in front of the lower ones. -/
theorem insertLast_sorted_split (p : Peer) (l : List Peer)
    (hs : l.Pairwise (fun a b => a.Priority ≥ b.Priority)) :
    ∃ A B, l = A ++ B ∧ insertLast p l = A ++ p :: B ∧
      (∀ a ∈ A, a.Priority ≥ p.Priority) ∧ (∀ b ∈ B, b.Priority < p.Priority) := by
  induction l with
  | nil => exact ⟨[], [], rfl, rfl, by simp, by simp⟩
  | cons y ys ih =>
    rw [List.pairwise_cons] at hs
    by_cases hall : (y :: ys).all (fun z => less p z) = true
    · refine ⟨[], y :: ys, rfl, by simp [insertLast, hall], by simp, ?_⟩
      intro b hb
      have := List.all_eq_true.1 hall b hb
      simpa [less] using this
    · have hy : y.Priority ≥ p.Priority := by
        by_contra hlt
        apply hall
        rw [List.all_eq_true]
        intro a ha
        have hxy : p.Priority > y.Priority := Nat.lt_of_not_le hlt
        rcases List.mem_cons.1 ha with rfl | ha
        · simpa [less] using hxy
        · have hya : a.Priority ≤ y.Priority := hs.1 a ha
          simpa [less] using Nat.lt_of_le_of_lt hya hxy
      obtain ⟨A, B, h1, h2, h3, h4⟩ := ih hs.2
      refine ⟨y :: A, B, by simp [h1], ?_, ?_, h4⟩
      · unfold insertLast
        rw [if_neg hall, h2]
        rfl
      · intro a ha
        rcases List.mem_cons.1 ha with rfl | ha
        · exact hy
        · exact h3 a ha

/-- C20: `Add` of a peer with a new id to a roster sorted by descending priority
yields a roster one longer, again sorted by descending priority, which is the
old roster with the peer put in right behind the last entry whose priority is at
least the peer's: the old entries keep their data and their order. -/
theorem C20_insert_keeps_sorted (l : PeerList) (p : Peer)
    (hs : SortedDesc l) (hnew : p.Id ∉ l.map Peer.Id) :
    (PeerList.Add l p).length = l.length + 1 ∧
    SortedDesc (PeerList.Add l p) ∧
    ∃ A B, l = A ++ B ∧ PeerList.Add l p = A ++ p :: B ∧
      (∀ a ∈ A, a.Priority ≥ p.Priority) ∧ (∀ b ∈ B, b.Priority < p.Priority) := by
  have hp := sortedDesc_pairwise hs
  have hadd : PeerList.Add l p = insertLast p l := by
    rw [Add_of_not_mem hnew, sort_of_sorted hp]
  obtain ⟨A, B, h1, h2, h3, h4⟩ := insertLast_sorted_split p l hp
  refine ⟨?_, ?_, A, B, h1, by rw [hadd]; exact h2, h3, h4⟩
  · rw [hadd]
    simpa using (insertLast_perm p l).length_eq
  · rw [hadd]
    apply List.Pairwise.chain'
    exact insertLast_pairwise hp hp (fun a _ h => h) (fun a _ h => Nat.le_of_lt h)

theorem C20_insert_keeps_sorted_witness :
    (PeerList.Add [⟨"a", 120, Unknown⟩, ⟨"b", 100, Unknown⟩, ⟨"c", 90, Unknown⟩]
      ⟨"d", 100, Unknown⟩).length = 3 + 1 ∧
    PeerList.Add [⟨"a", 120, Unknown⟩, ⟨"b", 100, Unknown⟩, ⟨"c", 90, Unknown⟩]
      ⟨"d", 100, Unknown⟩
      = [⟨"a", 120, Unknown⟩, ⟨"b", 100, Unknown⟩, ⟨"d", 100, Unknown⟩, ⟨"c", 90, Unknown⟩] :=
  have h := C20_insert_keeps_sorted
    [⟨"a", 120, Unknown⟩, ⟨"b", 100, Unknown⟩, ⟨"c", 90, Unknown⟩] ⟨"d", 100, Unknown⟩
    (by simp [SortedDesc]) (by decide)
  ⟨h.1, by decide⟩

/-! ### Roster order over arbitrary sequences -/

theorem sort_foldl_sorted (acc l : List Peer)
    (hs : acc.Pairwise (fun a b => a.Priority ≥ b.Priority)) :
    (l.foldl (fun acc x => insertLast x acc) acc).Pairwise
      (fun a b => a.Priority ≥ b.Priority) := by
  induction l generalizing acc with
  | nil => simpa using hs
  | cons x xs ih =>
    simp only [List.foldl_cons]
    exact ih _ (insertLast_pairwise hs hs (fun _ _ h => h) (fun _ _ h => Nat.le_of_lt h))

/-- The sort leaves any roster sorted by descending priority. -/
theorem sort_sorted (l : PeerList) :
    (PeerList.sort l).Pairwise (fun a b => a.Priority ≥ b.Priority) :=
  sort_foldl_sorted [] l List.Pairwise.nil

theorem sort_foldl_pairwise {R : Peer → Peer → Prop}
    (hgt : ∀ a b : Peer, a.Priority > b.Priority → R a b) (acc l : List Peer)
    (hs : acc.Pairwise (fun a b => a.Priority ≥ b.Priority))
    (hR : (acc ++ l).Pairwise R) :
    (l.foldl (fun acc x => insertLast x acc) acc).Pairwise R := by
  induction l generalizing acc with
  | nil => simpa using hR
  | cons x xs ih =>
    simp only [List.foldl_cons]
    rw [List.pairwise_append, List.pairwise_cons] at hR
    obtain ⟨hacc, ⟨hx, hxs⟩, hcross⟩ := hR
    have hs2 : (insertLast x acc).Pairwise (fun a b => a.Priority ≥ b.Priority) :=
      insertLast_pairwise hs hs (fun _ _ h => h) (fun _ _ h => Nat.le_of_lt h)
    have hR2 : (insertLast x acc).Pairwise R :=
      insertLast_pairwise hacc hs (fun a ha _ => hcross a ha x (List.mem_cons_self _ _))
        (fun a _ h => hgt x a h)
    refine ih _ hs2 ?_
    rw [List.pairwise_append]
    refine ⟨hR2, hxs, ?_⟩
    intro a ha y hy
    rcases mem_insertLast.1 ha with rfl | ha
    · exact hx y hy
    · exact hcross a ha y (List.mem_cons_of_mem _ hy)

/-- The sort is stable: a relation that holds between every earlier and later
entry, and between any entry and one of strictly lower priority, still holds
after sorting. -/
theorem sort_pairwise {R : Peer → Peer → Prop}
    (hgt : ∀ a b : Peer, a.Priority > b.Priority → R a b) (l : PeerList)
    (hR : l.Pairwise R) : (PeerList.sort l).Pairwise R :=
  sort_foldl_pairwise hgt [] l List.Pairwise.nil (by simpa using hR)

theorem Add_new_eq_sort {l : PeerList} {p : Peer} (h : p.Id ∉ l.map Peer.Id) :
    PeerList.Add l p = PeerList.sort (l ++ [p]) := by
  simp only [PeerList.Add, updateExisting_eq_none h]

/-- Replacing an entry by one of the same priority keeps a pairwise relation
that depends on the two entries only as far as the replacement allows. -/
theorem pairwise_replace {R : Peer → Peer → Prop} {A B : List Peer} {q p : Peer}
    (h : (A ++ q :: B).Pairwise R)
    (key1 : ∀ c, R q c → R p c) (key2 : ∀ c, R c q → R c p) :
    (A ++ p :: B).Pairwise R := by
  rw [List.pairwise_append, List.pairwise_cons] at h ⊢
  obtain ⟨hA, ⟨hqB, hB⟩, hAB⟩ := h
  refine ⟨hA, ⟨fun b hb => key1 b (hqB b hb), hB⟩, ?_⟩
  intro a ha c hc
  rcases List.mem_cons.1 hc with rfl | hc
  · exact key2 a (hAB a ha q (List.mem_cons_self _ _))
  · exact hAB a ha c (List.mem_cons_of_mem _ hc)

/-- Whatever the sequence, the entries whose ids have kept their priority stand,
among equal priorities, in the order of first insertion. -/
theorem addAll_stable (pre suf : List Peer) :
    (addAll pre).Pairwise (StableAmong (pre ++ suf) pre) := by
  induction pre using List.reverseRecOn generalizing suf with
  | nil => simp [addAll]
  | append_singleton pre p ih =>
    have hassoc : pre ++ [p] ++ suf = pre ++ (p :: suf) := by simp
    rw [hassoc]
    have hmono : ∀ id, KeepsPriority (pre ++ [p]) id → KeepsPriority pre id :=
      fun id h a ha b hb => h a (List.mem_append_left _ ha) b (List.mem_append_left _ hb)
    have hl : (addAll pre).Pairwise (StableAmong (pre ++ p :: suf) (pre ++ [p])) :=
      (ih (p :: suf)).imp (fun h e k1 k2 => h e (hmono _ k1) (hmono _ k2))
    rw [addAll_concat]
    rcases Add_cases (addAll pre) p with ⟨A, q, B, h1, h2, h3, -⟩ | ⟨hnew, -⟩
    · have hq : q ∈ pre ++ [p] := by
        apply List.mem_append_left
        apply addAll_mem
        rw [h1]; simp
      have hp : p ∈ pre ++ [p] := by simp
      have hqp : KeepsPriority (pre ++ [p]) p.Id → q.Priority = p.Priority :=
        fun k => k q hq p hp h3 rfl
      rw [h1] at hl
      rw [h2]
      refine pairwise_replace hl ?_ ?_
      · intro c h e k1 k2
        have := h ((hqp k1).trans e) (by rw [h3]; exact k1) k2
        rwa [h3] at this
      · intro c h e k1 k2
        have := h (e.trans (hqp k2).symm) k1 (by rw [h3]; exact k2)
        rwa [h3] at this
    · rw [Add_new_eq_sort hnew]
      refine sort_pairwise (fun a b hgt e => absurd e (Nat.ne_of_gt hgt)) _ ?_
      rw [List.pairwise_append]
      refine ⟨hl, by simp, ?_⟩
      intro a ha b hb _ _ _
      rw [List.mem_singleton] at hb
      subst hb
      have ha1 : a.Id ∈ pre.map Peer.Id := List.mem_map_of_mem _ (addAll_mem ha)
      have hp1 : b.Id ∉ pre.map Peer.Id := fun hc => hnew ((addAll_ids pre b.Id).2 hc)
      have e1 : idIndex (pre ++ b :: suf) a.Id < pre.length := by
        simp only [idIndex, List.map_append]
        rw [List.indexOf_append_of_mem ha1]
        simpa using List.indexOf_lt_length.2 ha1
      have e2 : idIndex (pre ++ b :: suf) b.Id = pre.length := by
        simp only [idIndex, List.map_append]
        rw [List.indexOf_append_of_not_mem hp1]
        simp
      omega

/-- C1 (amended): over every sequence of peers `Add`ed in turn to the empty roster,
(1) an `Add` that inserts a new id leaves the roster sorted by descending
priority, whatever the roster was before;
(2) an `Add` that updates an existing id leaves a sorted roster sorted when the
new priority is that of the entry it replaces; in general it re-sorts nothing,
so its result is sorted exactly when the roster with that entry overwritten in
place is;
(3) after every `Add`, entries of equal priority whose ids have kept one priority
in the sequence so far stand in the order in which their ids were first
inserted;
(4) so when the peers added so far carry one priority per id, the roster is sorted
by descending priority and all its entries of equal priority stand in the order
in which their ids were first inserted. -/
theorem C1_add_sorted_stable (ps : List Peer) (k : Nat) :
    (∀ (l : PeerList) (p : Peer), p.Id ∉ l.map Peer.Id → SortedDesc (PeerList.Add l p)) ∧
    (∀ (l : PeerList) (p : Peer), SortedDesc l →
      (∀ q, l[idIndex l p.Id]? = some q → q.Priority = p.Priority) →
      SortedDesc (PeerList.Add l p)) ∧
    (∀ (l : PeerList) (p : Peer), p.Id ∈ l.map Peer.Id →
      (SortedDesc (PeerList.Add l p) ↔ SortedDesc (l.set (idIndex l p.Id) p))) ∧
    (addAll (ps.take k)).Pairwise (StableAmong ps (ps.take k)) ∧
    ((∀ a ∈ ps.take k, ∀ b ∈ ps.take k, a.Id = b.Id → a.Priority = b.Priority) →
      SortedDesc (addAll (ps.take k)) ∧ InsertionOrdered ps (addAll (ps.take k))) := by
  have s1 : ∀ (l : PeerList) (p : Peer), p.Id ∉ l.map Peer.Id →
      SortedDesc (PeerList.Add l p) := by
    intro l p hnew
    rw [Add_new_eq_sort hnew]
    exact List.Pairwise.chain' (sort_sorted _)
  have hst : (addAll (ps.take k)).Pairwise (StableAmong ps (ps.take k)) := by
    have h := addAll_stable (ps.take k) (ps.drop k)
    rwa [List.take_append_drop] at h
  refine ⟨s1, ?_, fun l p h => by rw [Add_of_mem h], hst, ?_⟩
  · intro l p hs hq
    rcases Add_cases l p with ⟨A, q, B, h1, h2, h3, h4⟩ | ⟨hnew, -⟩
    · have hk : idIndex l p.Id = A.length := by rw [h1]; exact idIndex_append_cons h3 h4
      have hget : l[idIndex l p.Id]? = some q := by
        rw [hk, h1, List.getElem?_append_right (Nat.le_refl _)]; simp
      have hqp : q.Priority = p.Priority := hq q hget
      have hp := sortedDesc_pairwise hs
      rw [h1] at hp
      rw [h2]
      apply List.Pairwise.chain'
      refine pairwise_replace hp ?_ ?_
      · intro c h
        exact hqp ▸ h
      · intro c h
        exact hqp ▸ h
    · exact s1 l p hnew
  · intro hprio
    have hb := addAll_before (ps.take k) [] (by simpa using hprio)
    constructor
    · apply List.Pairwise.chain'
      refine hb.imp ?_
      intro a b hab
      rcases hab with hab | hab
      · exact Nat.le_of_lt hab
      · exact Nat.le_of_eq hab.1.symm
    · refine hst.imp ?_
      intro a b h e
      exact h e (fun x hx y hy h1 h2 => hprio x hx y hy (h1.trans h2.symm))
        (fun x hx y hy h1 h2 => hprio x hx y hy (h1.trans h2.symm))

theorem C1_add_sorted_stable_witness :
    SortedDesc (PeerList.Add [⟨"a", 110, Unknown⟩] ⟨"b", 120, Unknown⟩) ∧
    SortedDesc (addAll ([⟨"a", 100, Unknown⟩, ⟨"b", 120, Unknown⟩, ⟨"a", 100, Active⟩,
        ⟨"c", 100, Unknown⟩, ⟨"b", 90, Unknown⟩].take 4)) ∧
    InsertionOrdered [⟨"a", 100, Unknown⟩, ⟨"b", 120, Unknown⟩, ⟨"a", 100, Active⟩,
        ⟨"c", 100, Unknown⟩, ⟨"b", 90, Unknown⟩]
      (addAll ([⟨"a", 100, Unknown⟩, ⟨"b", 120, Unknown⟩, ⟨"a", 100, Active⟩,
        ⟨"c", 100, Unknown⟩, ⟨"b", 90, Unknown⟩].take 4)) :=
  have h := C1_add_sorted_stable [⟨"a", 100, Unknown⟩, ⟨"b", 120, Unknown⟩,
    ⟨"a", 100, Active⟩, ⟨"c", 100, Unknown⟩, ⟨"b", 90, Unknown⟩] 4
  ⟨h.1 [⟨"a", 110, Unknown⟩] ⟨"b", 120, Unknown⟩ (by decide), h.2.2.2.2 (by decide)⟩

end GoFailover
